import Mathlib

/-!
Order store and matching pass of `src/main.cpp`.

A shallow embedding of the two operations of the program, `addOrder`
(the order store's submit) and `matchOrder` (the match pass), together
with the properties of the specification that concern them.

Modelling conventions.

* `int` values are `Int`; the only `int` on which the program does arithmetic
  is the atomic counter `orderCount`, whose `fetch_add` wraps in two's
  complement (`wrapInt32`).
* `double` values are modelled by `Double`: the program only stores, copies
  and compares prices, and IEEE-754 comparisons are exact, so a double is
  represented by the value it denotes (a rational, an infinity, or NaN).
* The global arrays `orderBook`, `lowestSellPrice` and `lowestSellIndex` are
  maps from `Int`; every subscript the program evaluates is checked against
  the bounds of the array and an access outside them is a `Fault`.
* The program is modelled in its sequential use: calls of `addOrder` one
  after another, then `matchOrder`.  Console output is not modelled.
-/

namespace StockTrading

/-! ## Constants and data types -/

/-- Capacity of the order store (`const int MAX_ORDERS = 10000`). -/
def MAX_ORDERS : Int := 10000

/-- Size of the ticker universe (`const int NUM_TICKERS = 1024`). -/
def NUM_TICKERS : Int := 1024

/-- The value of a C++ `double`, as far as storing and comparing it can
observe: NaN, the two infinities, or a finite number. -/
inductive Double where
  | nan : Double
  | negInf : Double
  | fin (q : ℚ) : Double
  | posInf : Double
  deriving DecidableEq

namespace Double

/-- The C++ comparison `a < b` on doubles (false as soon as one side is NaN). -/
def lt : Double → Double → Bool
  | fin a, fin b => decide (a < b)
  | negInf, fin _ => true
  | negInf, posInf => true
  | fin _, posInf => true
  | _, _ => false

/-- The C++ comparison `a >= b` on doubles (false as soon as one side is NaN). -/
def ge : Double → Double → Bool
  | fin a, fin b => decide (b ≤ a)
  | fin _, negInf => true
  | posInf, negInf => true
  | posInf, fin _ => true
  | negInf, negInf => true
  | posInf, posInf => true
  | _, _ => false

/-- The literal `1e9`, the initial value of `lowestSellPrice[c]`. -/
def sentinel : Double := fin 1000000000

end Double

/-- Record `struct Order`. -/
structure Order where
  price : Double
  orderId : Int
  quantity : Int
  buy_or_sell : Bool
  ticker : Int
  deriving DecidableEq

/-- The default constructor `Order()`, with which the global array is filled
at program start. -/
def Order.zero : Order :=
  { price := Double.fin 0, orderId := 0, quantity := 0, buy_or_sell := false, ticker := 0 }

/-- The constructor `Order(orderId, isBuy, ticker, quantity, price)`. -/
def Order.make (orderId : Int) (isBuy : Bool) (ticker quantity : Int) (price : Double) : Order :=
  { price := price, orderId := orderId, quantity := quantity, buy_or_sell := isBuy,
    ticker := ticker }

/-- Record `struct Match`. -/
structure Match where
  buy : Order
  sell : Order
  deriving DecidableEq

/-- The two globals of the order store: the atomic counter `orderCount` and
the array `orderBook[MAX_ORDERS]`. -/
structure Store where
  orderCount : Int
  orderBook : Int → Order

/-- The store at program start: `orderCount(0)` and an array of `Order()`.
Only the entries in `[0, MAX_ORDERS)` exist; the map is never consulted
outside them, every subscript being checked first. -/
def Store.empty : Store :=
  { orderCount := 0, orderBook := fun _ => Order.zero }

/-- An array subscript outside its array (undefined behaviour in C++). -/
inductive Fault where
  | orderBookIndex (i : Int) : Fault
  | tickerIndex (t : Int) : Fault
  deriving DecidableEq

/-! ## The order store: `addOrder` -/

/-- Reduction of an integer to the range of a 32-bit `int`. -/
def wrapInt32 (x : Int) : Int := (x + 2147483648) % 4294967296 - 2147483648

/-- The call `orderCount.fetch_add(d)`: the value returned (the old counter)
and the value stored (old + d, wrapped). -/
def fetch_add (c d : Int) : Int × Int := (c, wrapInt32 (c + d))

/-- Function `addOrder` of `src/main.cpp`. -/
def addOrder (s : Store) (isBuy : Bool) (ticker quantity : Int) (price : Double) :
    Except Fault Store :=
  let r := fetch_add s.orderCount 1
  let index := r.1
  if index ≥ MAX_ORDERS then
    .ok { orderCount := r.2, orderBook := s.orderBook }
  else if 0 ≤ index then
    .ok { orderCount := r.2,
          orderBook := Function.update s.orderBook index
            (Order.make index isBuy ticker quantity price) }
  else
    .error (Fault.orderBookIndex index)

/-- The arguments of one call of `addOrder`. -/
structure Call where
  isBuy : Bool
  ticker : Int
  quantity : Int
  price : Double
  deriving DecidableEq

/-- One call of `addOrder` with the given arguments. -/
def submit (s : Store) (c : Call) : Except Fault Store :=
  addOrder s c.isBuy c.ticker c.quantity c.price

/-- A sequence of `addOrder` calls executed one after another. -/
def runCalls : Store → List Call → Except Fault Store
  | s, [] => .ok s
  | s, c :: cs =>
    match submit s c with
    | .ok s1 => runCalls s1 cs
    | .error e => .error e

/-- The array `orderBook` after the calls `calls` made from the empty store:
slot `i` inside the array holds the order of call number `i`, if there is one. -/
def bookOf (calls : List Call) : Int → Order := fun i =>
  if 0 ≤ i ∧ i < MAX_ORDERS then
    match calls[i.toNat]? with
    | some c => Order.make i c.isBuy c.ticker c.quantity c.price
    | none => Order.zero
  else Order.zero

/-! ## The match pass: `matchOrder` -/

/-- The two local arrays of `matchOrder`. -/
structure Scratch where
  lowestSellPrice : Int → Double
  lowestSellIndex : Int → Int

/-- The scratch arrays after the initialisation loop, which sets every entry
`c` in `[0, NUM_TICKERS)` to `1e9` and `-1`; the entries outside that range do
not exist and are never consulted, every subscript being checked first. -/
def Scratch.init : Scratch :=
  { lowestSellPrice := fun _ => Double.sentinel, lowestSellIndex := fun _ => -1 }

/-- A loop `for (int i = 0; i < n; ++i) body`, whose body may fault: the
state after `n` rounds is the body at `i = n - 1` applied to the state after
`n - 1` rounds. -/
def forLoop {σ : Type} (body : σ → Int → Except Fault σ) : Nat → σ → Except Fault σ
  | 0, s => .ok s
  | n + 1, s =>
    match forLoop body n s with
    | .ok s1 => body s1 (n : Int)
    | .error e => .error e

/-- Body of the first loop of `matchOrder`. -/
def firstPassBody (book : Int → Order) (sc : Scratch) (i : Int) : Except Fault Scratch :=
  if 0 ≤ i ∧ i < MAX_ORDERS then
    let order := book i
    if !order.buy_or_sell then
      let t := order.ticker
      if 0 ≤ t ∧ t < NUM_TICKERS then
        if order.price.lt (sc.lowestSellPrice t) then
          .ok { lowestSellPrice := Function.update sc.lowestSellPrice t order.price,
                lowestSellIndex := Function.update sc.lowestSellIndex t i }
        else .ok sc
      else .error (Fault.tickerIndex t)
    else .ok sc
  else .error (Fault.orderBookIndex i)

/-- Body of the second loop of `matchOrder`; `matches.push_back(m)` appends. -/
def secondPassBody (book : Int → Order) (sc : Scratch) (ms : List Match) (i : Int) :
    Except Fault (List Match) :=
  if 0 ≤ i ∧ i < MAX_ORDERS then
    let buyOrder := book i
    if buyOrder.buy_or_sell then
      let t := buyOrder.ticker
      if 0 ≤ t ∧ t < NUM_TICKERS then
        if sc.lowestSellIndex t ≠ -1 ∧ buyOrder.price.ge (sc.lowestSellPrice t) = true then
          let j := sc.lowestSellIndex t
          if 0 ≤ j ∧ j < MAX_ORDERS then
            .ok (ms ++ [{ buy := buyOrder, sell := book j }])
          else .error (Fault.orderBookIndex j)
        else .ok ms
      else .error (Fault.tickerIndex t)
    else .ok ms
  else .error (Fault.orderBookIndex i)

/-- The first loop of `matchOrder`, run over slots `0 .. n-1`. -/
def firstPass (book : Int → Order) (n : Nat) : Except Fault Scratch :=
  forLoop (firstPassBody book) n Scratch.init

/-- Function `matchOrder` of `src/main.cpp`. -/
def matchOrder (s : Store) : Except Fault (List Match) :=
  let totalOrders := s.orderCount
  match firstPass s.orderBook totalOrders.toNat with
  | .ok sc => forLoop (secondPassBody s.orderBook sc) totalOrders.toNat []
  | .error e => .error e

/-! ## Vocabulary of the specification -/

/-- The written slots of the store are the indices `0 ≤ i < orderCount`. -/
def Store.Written (s : Store) (i : Int) : Prop := 0 ≤ i ∧ i < s.orderCount

instance (s : Store) (i : Int) : Decidable (s.Written i) := by
  unfold Store.Written; infer_instance

/-- Every written order has its ticker in `[0, NUM_TICKERS)`. -/
def Store.TickersInRange (s : Store) : Prop :=
  ∀ i, 0 ≤ i → i < s.orderCount →
    0 ≤ (s.orderBook i).ticker ∧ (s.orderBook i).ticker < NUM_TICKERS

/-- Every written order carries its slot index as `orderId`. -/
def Store.IdsAreSlots (s : Store) : Prop :=
  ∀ i, 0 ≤ i → i < s.orderCount → (s.orderBook i).orderId = i

/-- A valid store: count within capacity, tickers in range, ids equal to slots. -/
def Store.Valid (s : Store) : Prop :=
  s.orderCount ≤ MAX_ORDERS ∧ s.TickersInRange ∧ s.IdsAreSlots

/-- The preconditions of a submission hold for every written order:
ticker in range, `quantity > 0`, `price > 0`. -/
def Store.SubmitPreconditions (s : Store) : Prop :=
  ∀ i, 0 ≤ i → i < s.orderCount →
    (0 ≤ (s.orderBook i).ticker ∧ (s.orderBook i).ticker < NUM_TICKERS) ∧
    0 < (s.orderBook i).quantity ∧
    Double.lt (Double.fin 0) (s.orderBook i).price = true

/-- Slot `j` is written and holds a Sell order on ticker `t`. -/
def Store.SellOn (s : Store) (t j : Int) : Prop :=
  0 ≤ j ∧ j < s.orderCount ∧ (s.orderBook j).buy_or_sell = false ∧ (s.orderBook j).ticker = t

instance (s : Store) (t j : Int) : Decidable (s.SellOn t j) := by
  unfold Store.SellOn; infer_instance

/-- Slot `j` holds a lowest-priced Sell order of ticker `t`: a Sell order on
`t` such that no Sell order on `t` is strictly cheaper. -/
def Store.LowestSellOn (s : Store) (t j : Int) : Prop :=
  s.SellOn t j ∧
  ∀ k, s.SellOn t k → Double.lt (s.orderBook k).price (s.orderBook j).price = false

/-! ## Specification of the two loops -/

/-- What the scratch arrays record once the first loop has scanned the slots
`0 .. n-1`: for each ticker either nothing (index `-1`, price `1e9`, and no
scanned Sell order on it priced below `1e9`), or the first scanned Sell order
of least price, that price being below `1e9`. -/
def FirstPassInv (book : Int → Order) (n : Int) (sc : Scratch) : Prop :=
  ∀ t : Int,
    (sc.lowestSellIndex t = -1 ∧ sc.lowestSellPrice t = Double.sentinel ∧
      ∀ j, 0 ≤ j → j < n → (book j).buy_or_sell = false → (book j).ticker = t →
        Double.lt (book j).price Double.sentinel = false) ∨
    (0 ≤ sc.lowestSellIndex t ∧ sc.lowestSellIndex t < n ∧
      (book (sc.lowestSellIndex t)).buy_or_sell = false ∧
      (book (sc.lowestSellIndex t)).ticker = t ∧
      (book (sc.lowestSellIndex t)).price = sc.lowestSellPrice t ∧
      Double.lt (sc.lowestSellPrice t) Double.sentinel = true ∧
      (∀ j, 0 ≤ j → j < n → (book j).buy_or_sell = false → (book j).ticker = t →
        Double.lt (book j).price (sc.lowestSellPrice t) = false) ∧
      (∀ j, 0 ≤ j → j < sc.lowestSellIndex t → (book j).buy_or_sell = false →
        (book j).ticker = t → (book j).price ≠ sc.lowestSellPrice t))

/-- The Match that round `i` of the second loop pushes, if it pushes one. -/
def matchAt (book : Int → Order) (sc : Scratch) (i : Int) : Option Match :=
  if (book i).buy_or_sell = true ∧ sc.lowestSellIndex (book i).ticker ≠ -1 ∧
      Double.ge (book i).price (sc.lowestSellPrice (book i).ticker) = true then
    some { buy := book i, sell := book (sc.lowestSellIndex (book i).ticker) }
  else none

/-- The recorded lowest sell of a ticker: slot `j` holds a Sell order on `t`
priced below `1e9`, no Sell order on `t` is strictly cheaper, and no earlier
Sell order on `t` has the same price. -/
def Store.RecordedSell (s : Store) (t j : Int) : Prop :=
  s.SellOn t j ∧
  Double.lt (s.orderBook j).price Double.sentinel = true ∧
  (∀ k, s.SellOn t k → Double.lt (s.orderBook k).price (s.orderBook j).price = false) ∧
  (∀ k, s.SellOn t k → k < j → (s.orderBook k).price ≠ (s.orderBook j).price)

/-! ## Concrete inputs used in examples -/

/-- Sells on ticker 5 priced 30, 20, 20 and a buy on ticker 5 priced 25. -/
def tieCalls : List Call :=
  [⟨false, 5, 10, Double.fin 30⟩, ⟨false, 5, 10, Double.fin 20⟩,
   ⟨false, 5, 10, Double.fin 20⟩, ⟨true, 5, 10, Double.fin 25⟩]

/-- The store after the calls `tieCalls`. -/
def tieStore : Store :=
  { orderCount := 4
    orderBook := fun i =>
      if i = 0 then Order.make 0 false 5 10 (Double.fin 30)
      else if i = 1 then Order.make 1 false 5 10 (Double.fin 20)
      else if i = 2 then Order.make 2 false 5 10 (Double.fin 20)
      else if i = 3 then Order.make 3 true 5 10 (Double.fin 25)
      else Order.zero }

/-- A Sell order on ticker 0 priced `2e9` at slot 0 and a Buy order on
ticker 0 priced `2e9` at slot 1. -/
def dearStore : Store :=
  { orderCount := 2
    orderBook := fun i =>
      if i = 0 then Order.make 0 false 0 1 (Double.fin 2000000000)
      else if i = 1 then Order.make 1 true 0 1 (Double.fin 2000000000)
      else Order.zero }

/-- A Sell order on ticker 7 priced `2e9` at slot 0 and two Buy orders on
ticker 7 priced `3e9` at slots 1 and 2. -/
def dearStoreTwoBuys : Store :=
  { orderCount := 3
    orderBook := fun i =>
      if i = 0 then Order.make 0 false 7 1 (Double.fin 2000000000)
      else if i = 1 then Order.make 1 true 7 1 (Double.fin 3000000000)
      else if i = 2 then Order.make 2 true 7 1 (Double.fin 3000000000)
      else Order.zero }

/-- A Sell order on ticker 1 priced 50, then Buy orders: on ticker 1 at 40,
on ticker 2 at 40, on ticker 1 at 60 and on ticker 1 at 70. -/
def mixedCalls : List Call :=
  [⟨false, 1, 3, Double.fin 50⟩, ⟨true, 1, 3, Double.fin 40⟩, ⟨true, 2, 3, Double.fin 40⟩,
   ⟨true, 1, 3, Double.fin 60⟩, ⟨true, 1, 3, Double.fin 70⟩]

/-- The store after the calls `mixedCalls`. -/
def mixedStore : Store :=
  { orderCount := 5
    orderBook := fun i =>
      if i = 0 then Order.make 0 false 1 3 (Double.fin 50)
      else if i = 1 then Order.make 1 true 1 3 (Double.fin 40)
      else if i = 2 then Order.make 2 true 2 3 (Double.fin 40)
      else if i = 3 then Order.make 3 true 1 3 (Double.fin 60)
      else if i = 4 then Order.make 4 true 1 3 (Double.fin 70)
      else Order.zero }

/-- A call within the submit preconditions: Sell, ticker 0, quantity 1, price 1. -/
def unitCall : Call := ⟨false, 0, 1, Double.fin 1⟩

/-! ## Further vocabulary -/

/-- Every slot that is written and lies inside the array carries its index
as `orderId`. -/
def Store.WrittenIdsAreSlots (s : Store) : Prop :=
  ∀ i, 0 ≤ i → i < s.orderCount → i < MAX_ORDERS → (s.orderBook i).orderId = i

/-- A round of the first loop of `matchOrder` as a step on the globals and
the scratch arrays: the round reads `orderBook` and assigns to the scratch
arrays only. -/
def firstPassStep (st : Store × Scratch) (i : Int) : Except Fault (Store × Scratch) :=
  match firstPassBody st.1.orderBook st.2 i with
  | .ok sc => .ok (st.1, sc)
  | .error e => .error e

/-- A round of the second loop of `matchOrder` as a step on the globals and
the vector `matches`: the round reads `orderBook` and the scratch arrays and
assigns to `matches` only. -/
def secondPassStep (sc : Scratch) (st : Store × List Match) (i : Int) :
    Except Fault (Store × List Match) :=
  match secondPassBody st.1.orderBook sc st.2 i with
  | .ok ms => .ok (st.1, ms)
  | .error e => .error e

/-- Function `matchOrder` of `src/main.cpp` as a step on the globals: the
vector it returns, together with the store it leaves behind. -/
def matchOrderRun (s : Store) : Except Fault (List Match × Store) :=
  let totalOrders := s.orderCount
  match forLoop firstPassStep totalOrders.toNat (s, Scratch.init) with
  | .ok st1 =>
    match forLoop (secondPassStep st1.2) totalOrders.toNat (st1.1, []) with
    | .ok st2 => .ok (st2.2, st2.1)
    | .error e => .error e
  | .error e => .error e

/-- The two stores have the same counter and hold the same order at every
written slot where either of them has an order on ticker `t`. -/
def Store.AgreeOnTicker (t : Int) (s1 s2 : Store) : Prop :=
  s1.orderCount = s2.orderCount ∧
  ∀ i, 0 ≤ i → i < s1.orderCount →
    ((s1.orderBook i).ticker = t ∨ (s2.orderBook i).ticker = t) →
    s1.orderBook i = s2.orderBook i

/-- The store `mixedStore` with the Buy order of slot 2, on ticker 2, replaced
by a Sell order on ticker 3. -/
def mixedStoreOther : Store :=
  { orderCount := 5
    orderBook := fun i =>
      if i = 0 then Order.make 0 false 1 3 (Double.fin 50)
      else if i = 1 then Order.make 1 true 1 3 (Double.fin 40)
      else if i = 2 then Order.make 2 false 3 8 (Double.fin 10)
      else if i = 3 then Order.make 3 true 1 3 (Double.fin 60)
      else if i = 4 then Order.make 4 true 1 3 (Double.fin 70)
      else Order.zero }

/-! ## Reference definition of the match pass -/

/-- Reference definition, from the wording of the specification: slot `j`
holds a Sell order on ticker `t`. -/
def refIsSell (s : Store) (t : Int) (j : Nat) : Bool :=
  !(s.orderBook (j : Int)).buy_or_sell && decide ((s.orderBook (j : Int)).ticker = t)

/-- Reference definition: ticker `t` has at least one Sell order in the store. -/
def refHasSell (s : Store) (t : Int) : Bool :=
  (List.range s.orderCount.toNat).any (refIsSell s t)

/-- Reference definition: slot `j` holds a Sell order on ticker `t` of minimum
price, no Sell order on `t` in the store being strictly cheaper. -/
def refIsMinSell (s : Store) (t : Int) (j : Nat) : Bool :=
  refIsSell s t j &&
    (List.range s.orderCount.toNat).all (fun k =>
      !(refIsSell s t k &&
        Double.lt (s.orderBook (k : Int)).price (s.orderBook (j : Int)).price))

/-- Reference definition: `s(t)`, the lowest slot index among the Sell orders
on ticker `t` of minimum price. -/
def referenceLowestSell (s : Store) (t : Int) : Option Nat :=
  (List.range s.orderCount.toNat).find? (refIsMinSell s t)

/-- Reference definition: the pair that slot `i` contributes, if it holds a
Buy order with ticker `t` such that `t` has at least one Sell order and the
buy price is at least the price at slot `s(t)`. -/
def referenceMatchAt (s : Store) (i : Nat) : Option Match :=
  if (s.orderBook (i : Int)).buy_or_sell = true ∧
      refHasSell s (s.orderBook (i : Int)).ticker = true then
    match referenceLowestSell s (s.orderBook (i : Int)).ticker with
    | some j =>
      if Double.ge (s.orderBook (i : Int)).price (s.orderBook (j : Int)).price = true then
        some { buy := s.orderBook (i : Int), sell := s.orderBook (j : Int) }
      else none
    | none => none
  else none

/-- Reference definition of the output of the match pass: the pairs of the
slots `0 .. orderCount-1`, in increasing order of the slot. -/
def referenceMatches (s : Store) : List Match :=
  (List.range s.orderCount.toNat).filterMap (referenceMatchAt s)

/-- A call with a ticker outside the ticker universe: Buy, ticker 5000,
quantity 1, price 1. -/
def strayCall : Call := ⟨true, 5000, 1, Double.fin 1⟩

/-! ## Concurrent callers of `addOrder` -/

/-- A step of a producer thread inside a call of `addOrder`.  `claim c`: a
thread enters `addOrder` with the arguments `c` and executes the atomic
`orderCount.fetch_add(1)` and the capacity test (lines 31 and 32).  `write k`:
the thread running call number `k` executes the slot write of line 34.  Calls
are numbered by the order of their claim steps. -/
inductive Event where
  | claim (c : Call) : Event
  | write (call : Nat) : Event

/-- A call between its claim step and its write step: its number, the value
of its local `index`, and its arguments. -/
structure PendingCall where
  call : Nat
  index : Int
  args : Call

/-- The globals shared by the threads, with the history of the execution:
the index each call received (`claimed[k]` for call number `k`), the calls
that hold an index and have not written yet, and the writes made so far
(call number and slot). -/
structure Shared where
  store : Store
  claimed : List Int
  pending : List PendingCall
  written : List (Nat × Int)

/-- The state at program start, before any thread runs. -/
def Shared.init : Shared :=
  { store := Store.empty, claimed := [], pending := [], written := [] }

/-- One step of an interleaving.  A claim step takes the index from
`fetch_add`; the call ends there when the index is at or beyond the capacity
and otherwise goes on to its write step.  A write step stores the order at
`orderBook[index]`, a fault when the index is outside the array.  A write
step that no thread can take, there being no call of that number between its
claim and its write, leaves the state as it is. -/
def stepEvent (st : Shared) : Event → Except Fault Shared
  | .claim c =>
    let r := fetch_add st.store.orderCount 1
    let index := r.1
    if index ≥ MAX_ORDERS then
      .ok { store := { orderCount := r.2, orderBook := st.store.orderBook },
            claimed := st.claimed ++ [index],
            pending := st.pending,
            written := st.written }
    else
      .ok { store := { orderCount := r.2, orderBook := st.store.orderBook },
            claimed := st.claimed ++ [index],
            pending := st.pending ++ [{ call := st.claimed.length, index := index, args := c }],
            written := st.written }
  | .write k =>
    match st.pending.find? (fun p => decide (p.call = k)) with
    | none => .ok st
    | some p =>
      if 0 ≤ p.index ∧ p.index < MAX_ORDERS then
        .ok { store :=
                { orderCount := st.store.orderCount,
                  orderBook := Function.update st.store.orderBook p.index
                    (Order.make p.index p.args.isBuy p.args.ticker p.args.quantity
                      p.args.price) },
              claimed := st.claimed,
              pending := st.pending.filter (fun q => !decide (q.call = k)),
              written := st.written ++ [(k, p.index)] }
      else .error (Fault.orderBookIndex p.index)

/-- An interleaving: the steps of the threads, one after another. -/
def runEvents : Shared → List Event → Except Fault Shared
  | st, [] => .ok st
  | st, e :: es =>
    match stepEvent st e with
    | .ok st1 => runEvents st1 es
    | .error f => .error f

/-- The number of claim steps of an interleaving, which is its number of calls. -/
def claimCount : List Event → Nat
  | [] => 0
  | .claim _ :: es => claimCount es + 1
  | .write _ :: es => claimCount es

/-- What holds of the shared state as long as fewer than `2^31` calls have
claimed: the counter is the number of claims, call number `k` received index
`k`, a pending call holds its own number as index, below the capacity, and
the writes made were made by different calls, each at the slot of its number,
none of them pending any more. -/
def Shared.Inv (st : Shared) : Prop :=
  st.store.orderCount = (st.claimed.length : Int) ∧
  st.claimed = (List.range st.claimed.length).map (fun k : Nat => (k : Int)) ∧
  (∀ p ∈ st.pending,
    p.call < st.claimed.length ∧ p.index = (p.call : Int) ∧ p.index < MAX_ORDERS) ∧
  (∀ w ∈ st.written,
    w.2 = (w.1 : Int) ∧ w.1 < st.claimed.length ∧ ∀ p ∈ st.pending, p.call ≠ w.1) ∧
  (st.written.map Prod.fst).Nodup

/-- An interleaving of three calls: the second call writes before the first,
and the third claims between the two writes. -/
def sampleEvents : List Event :=
  [Event.claim ⟨false, 1, 3, Double.fin 50⟩, Event.claim ⟨true, 1, 3, Double.fin 60⟩,
   Event.write 1, Event.claim ⟨true, 2, 3, Double.fin 40⟩, Event.write 0, Event.write 2]

/-! ## Comparison of doubles -/

namespace Double

theorem lt_irrefl (a : Double) : lt a a = false := by
  cases a <;> simp [lt]

theorem lt_trans {a b c : Double} (h1 : lt a b = true) (h2 : lt b c = true) :
    lt a c = true := by
  cases a <;> cases b <;> cases c <;> simp_all [lt]
  exact h1.trans h2

theorem lt_asymm {a b : Double} (h : lt a b = true) : lt b a = false := by
  cases a <;> cases b <;> simp_all [lt]
  exact le_of_lt h

theorem lt_ne_nan {a b : Double} (h : lt a b = true) : a ≠ nan ∧ b ≠ nan := by
  cases a <;> cases b <;> simp_all [lt]

theorem ge_iff (a b : Double) :
    ge a b = true ↔ a ≠ nan ∧ b ≠ nan ∧ lt a b = false := by
  cases a <;> cases b <;> simp [lt, ge]

theorem eq_of_not_lt {a b : Double} (ha : a ≠ nan) (hb : b ≠ nan)
    (h1 : lt a b = false) (h2 : lt b a = false) : a = b := by
  cases a <;> cases b <;> simp_all [lt]
  exact le_antisymm h2 h1

end Double

/-! ## Loops -/

theorem forLoop_succ {σ : Type} (body : σ → Int → Except Fault σ) (n : Nat) (s s1 : σ)
    (h : forLoop body n s = .ok s1) : forLoop body (n + 1) s = body s1 (n : Int) := by
  simp [forLoop, h]

theorem forLoop_error {σ : Type} (body : σ → Int → Except Fault σ) (n k : Nat) (s : σ)
    (e : Fault) (h : forLoop body n s = .error e) : forLoop body (n + k) s = .error e := by
  induction k with
  | zero => simpa using h
  | succ k ih => rw [← Nat.add_assoc]; simp [forLoop, ih]

/-! ## The first loop of `matchOrder` -/

theorem firstPassInv_init (book : Int → Order) : FirstPassInv book 0 Scratch.init := by
  intro t
  left
  refine ⟨rfl, rfl, ?_⟩
  intro j h0 h1
  omega

/-- One round of the first loop on a Buy order keeps the invariant. -/
theorem firstPassInv_skip (book : Int → Order) (n : Int) (sc : Scratch)
    (hinv : FirstPassInv book n sc) (hn : 0 ≤ n) (hb : (book n).buy_or_sell = true) :
    FirstPassInv book (n + 1) sc := by
  intro t
  rcases hinv t with ⟨h1, h2, h3⟩ | ⟨h1, h2, h3, h4, h5, h6, h7, h8⟩
  · left
    refine ⟨h1, h2, ?_⟩
    intro j hj0 hj1 hs ht
    rcases (show j < n ∨ j = n by omega) with hlt | heq
    · exact h3 j hj0 hlt hs ht
    · subst heq; simp [hb] at hs
  · right
    refine ⟨h1, by omega, h3, h4, h5, h6, ?_, h8⟩
    intro j hj0 hj1 hs ht
    rcases (show j < n ∨ j = n by omega) with hlt | heq
    · exact h7 j hj0 hlt hs ht
    · subst heq; simp [hb] at hs

/-- One round of the first loop on a Sell order that is not strictly cheaper
than the recorded price keeps the invariant. -/
theorem firstPassInv_keep (book : Int → Order) (n : Int) (sc : Scratch)
    (hinv : FirstPassInv book n sc) (hn : 0 ≤ n)
    (hlt : Double.lt (book n).price (sc.lowestSellPrice (book n).ticker) = false) :
    FirstPassInv book (n + 1) sc := by
  intro t
  rcases hinv t with ⟨h1, h2, h3⟩ | ⟨h1, h2, h3, h4, h5, h6, h7, h8⟩
  · left
    refine ⟨h1, h2, ?_⟩
    intro j hj0 hj1 hs ht
    rcases (show j < n ∨ j = n by omega) with hjn | heq
    · exact h3 j hj0 hjn hs ht
    · subst heq; rw [ht, h2] at hlt; exact hlt
  · right
    refine ⟨h1, by omega, h3, h4, h5, h6, ?_, h8⟩
    intro j hj0 hj1 hs ht
    rcases (show j < n ∨ j = n by omega) with hjn | heq
    · exact h7 j hj0 hjn hs ht
    · subst heq; rw [ht] at hlt; exact hlt

/-- One round of the first loop on a Sell order strictly cheaper than the
recorded price, which is then recorded, keeps the invariant. -/
theorem firstPassInv_update (book : Int → Order) (n : Int) (sc : Scratch)
    (hinv : FirstPassInv book n sc) (hn : 0 ≤ n)
    (hs : (book n).buy_or_sell = false)
    (hlt : Double.lt (book n).price (sc.lowestSellPrice (book n).ticker) = true) :
    FirstPassInv book (n + 1)
      { lowestSellPrice := Function.update sc.lowestSellPrice (book n).ticker (book n).price,
        lowestSellIndex := Function.update sc.lowestSellIndex (book n).ticker n } := by
  intro t
  by_cases htt : t = (book n).ticker
  · subst htt
    right
    simp only [Function.update_same]
    have hold : ∀ j, 0 ≤ j → j < n → (book j).buy_or_sell = false →
        (book j).ticker = (book n).ticker →
        Double.lt (book j).price (sc.lowestSellPrice (book n).ticker) = false := by
      intro j hj0 hj1 hsj htj
      rcases hinv (book n).ticker with ⟨_, h2, h3⟩ | ⟨_, _, _, _, _, _, h7, _⟩
      · rw [h2]; exact h3 j hj0 hj1 hsj htj
      · exact h7 j hj0 hj1 hsj htj
    have hsent : Double.lt (book n).price Double.sentinel = true := by
      rcases hinv (book n).ticker with ⟨_, h2, _⟩ | ⟨_, _, _, _, _, h6, _, _⟩
      · rw [h2] at hlt; exact hlt
      · exact Double.lt_trans hlt h6
    refine ⟨hn, by omega, hs, trivial, trivial, hsent, ?_, ?_⟩
    · intro j hj0 hj1 hsj htj
      rcases (show j < n ∨ j = n by omega) with hjn | heq
      · cases hc : Double.lt (book j).price (book n).price with
        | false => rfl
        | true =>
          have := Double.lt_trans hc hlt
          rw [hold j hj0 hjn hsj htj] at this
          exact absurd this (by simp)
      · subst heq; exact Double.lt_irrefl _
    · intro j hj0 hj1 hsj htj heq
      have := hold j hj0 hj1 hsj htj
      rw [heq, hlt] at this
      exact absurd this (by simp)
  · have hne : ∀ j, (book j).ticker = t → j ≠ n := by
      intro j hj hjn; subst hjn; exact htt hj.symm
    simp only [Function.update_noteq htt]
    rcases hinv t with ⟨h1, h2, h3⟩ | ⟨h1, h2, h3, h4, h5, h6, h7, h8⟩
    · left
      refine ⟨h1, h2, ?_⟩
      intro j hj0 hj1 hsj htj
      have := hne j htj
      exact h3 j hj0 (by omega) hsj htj
    · right
      refine ⟨h1, by omega, h3, h4, h5, h6, ?_, h8⟩
      intro j hj0 hj1 hsj htj
      have := hne j htj
      exact h7 j hj0 (by omega) hsj htj

/-- The first loop over slots `0 .. n-1` inside the array, all holding
tickers in range, does not fault and establishes the invariant. -/
theorem firstPass_inv (book : Int → Order) (n : Nat) (hcap : (n : Int) ≤ MAX_ORDERS)
    (htick : ∀ i : Int, 0 ≤ i → i < n →
      0 ≤ (book i).ticker ∧ (book i).ticker < NUM_TICKERS) :
    ∃ sc, firstPass book n = .ok sc ∧ FirstPassInv book n sc := by
  induction n with
  | zero => exact ⟨Scratch.init, rfl, by simpa using firstPassInv_init book⟩
  | succ n ih =>
    have hcap1 : (n : Int) ≤ MAX_ORDERS := by push_cast at hcap; omega
    obtain ⟨sc, hsc, hinv⟩ := ih hcap1 (fun i h0 h1 => htick i h0 (by push_cast; omega))
    have hn0 : (0 : Int) ≤ n := Int.natCast_nonneg n
    have hnlt : (n : Int) < MAX_ORDERS := by push_cast at hcap; omega
    have ht := htick n hn0 (by push_cast; omega)
    unfold firstPass at hsc ⊢
    rw [forLoop_succ _ _ _ _ hsc]
    simp only [firstPassBody, hn0, hnlt, and_self, if_true, ht]
    push_cast
    cases hb : (book n).buy_or_sell with
    | true => exact ⟨sc, by simp, firstPassInv_skip book n sc hinv hn0 hb⟩
    | false =>
      cases hlt : Double.lt (book n).price (sc.lowestSellPrice (book n).ticker) with
      | false => exact ⟨sc, by simp, firstPassInv_keep book n sc hinv hn0 hlt⟩
      | true => exact ⟨_, by simp, firstPassInv_update book n sc hinv hn0 hb hlt⟩

/-! ## The second loop of `matchOrder` -/

/-- The second loop over slots `0 .. n-1` inside the array, all holding
tickers in range, with every recorded index inside the array, does not fault
and pushes the Matches of the rounds in order. -/
theorem secondPass_eq (book : Int → Order) (sc : Scratch) (n : Nat)
    (hcap : (n : Int) ≤ MAX_ORDERS)
    (htick : ∀ i : Int, 0 ≤ i → i < n →
      0 ≤ (book i).ticker ∧ (book i).ticker < NUM_TICKERS)
    (hidx : ∀ t, sc.lowestSellIndex t = -1 ∨
      (0 ≤ sc.lowestSellIndex t ∧ sc.lowestSellIndex t < MAX_ORDERS))
    (acc : List Match) :
    forLoop (secondPassBody book sc) n acc =
      .ok (acc ++ (List.range n).filterMap (fun k : Nat => matchAt book sc (k : Int))) := by
  induction n with
  | zero => simp [forLoop]
  | succ n ih =>
    have hcap1 : (n : Int) ≤ MAX_ORDERS := by push_cast at hcap; omega
    have hprev := ih hcap1 (fun i h0 h1 => htick i h0 (by push_cast; omega))
    have hn0 : (0 : Int) ≤ n := Int.natCast_nonneg n
    have hnlt : (n : Int) < MAX_ORDERS := by push_cast at hcap; omega
    have ht := htick n hn0 (by push_cast; omega)
    have hsingle : List.filterMap (fun k : Nat => matchAt book sc (k : Int)) [n] =
        (matchAt book sc (n : Int)).toList := by
      cases h : matchAt book sc (n : Int) <;> simp [List.filterMap, h]
    rw [forLoop_succ _ _ _ _ hprev, List.range_succ, List.filterMap_append, hsingle]
    simp only [secondPassBody, hn0, hnlt, and_self, if_true, ht, matchAt]
    cases hb : (book n).buy_or_sell with
    | false => simp
    | true =>
      by_cases hc : sc.lowestSellIndex (book n).ticker ≠ -1 ∧
          Double.ge (book n).price (sc.lowestSellPrice (book n).ticker) = true
      · have hin : 0 ≤ sc.lowestSellIndex (book n).ticker ∧
            sc.lowestSellIndex (book n).ticker < MAX_ORDERS := by
          rcases hidx (book n).ticker with h | h
          · exact absurd h hc.1
          · exact h
        simp [hc, hin]
      · simp [hc]

/-- The invariant bounds every recorded index by the number of scanned slots. -/
theorem FirstPassInv.index_bound {book : Int → Order} {n : Int} {sc : Scratch}
    (hinv : FirstPassInv book n sc) (t : Int) :
    sc.lowestSellIndex t = -1 ∨ (0 ≤ sc.lowestSellIndex t ∧ sc.lowestSellIndex t < n) := by
  rcases hinv t with ⟨h1, _, _⟩ | ⟨h1, h2, _⟩
  · exact Or.inl h1
  · exact Or.inr ⟨h1, h2⟩

/-- Function `matchOrder` on a store within capacity whose written orders
have tickers in range: it returns, and its result is the list of the Matches
of the rounds `0 .. orderCount-1` for scratch arrays satisfying the invariant
of the first loop. -/
theorem matchOrder_eq (s : Store) (hcap : s.orderCount ≤ MAX_ORDERS)
    (htick : s.TickersInRange) :
    ∃ sc, FirstPassInv s.orderBook s.orderCount.toNat sc ∧
      matchOrder s = .ok ((List.range s.orderCount.toNat).filterMap
        (fun k : Nat => matchAt s.orderBook sc (k : Int))) := by
  have hcapn : ((s.orderCount.toNat : Nat) : Int) ≤ MAX_ORDERS := by
    unfold MAX_ORDERS at *; omega
  have htickn : ∀ i : Int, 0 ≤ i → i < (s.orderCount.toNat : Nat) →
      0 ≤ (s.orderBook i).ticker ∧ (s.orderBook i).ticker < NUM_TICKERS :=
    fun i h0 h1 => htick i h0 (by omega)
  obtain ⟨sc, hsc, hinv⟩ := firstPass_inv s.orderBook s.orderCount.toNat hcapn htickn
  refine ⟨sc, hinv, ?_⟩
  have hidx : ∀ t, sc.lowestSellIndex t = -1 ∨
      (0 ≤ sc.lowestSellIndex t ∧ sc.lowestSellIndex t < MAX_ORDERS) := by
    intro t
    rcases hinv.index_bound t with h | h
    · exact Or.inl h
    · exact Or.inr ⟨h.1, by omega⟩
  have h2 := secondPass_eq s.orderBook sc s.orderCount.toNat hcapn htickn hidx []
  simp only [matchOrder, hsc, h2, List.nil_append]

/-- Membership in the result of `matchOrder`, in the setting of `matchOrder_eq`. -/
theorem mem_matches_iff (book : Int → Order) (sc : Scratch) (c : Int) (m : Match) :
    m ∈ (List.range c.toNat).filterMap (fun k : Nat => matchAt book sc (k : Int)) ↔
      ∃ i : Int, 0 ≤ i ∧ i < c ∧ matchAt book sc i = some m := by
  simp only [List.mem_filterMap, List.mem_range]
  constructor
  · rintro ⟨k, hk, hm⟩
    exact ⟨(k : Int), Int.natCast_nonneg k, by omega, hm⟩
  · rintro ⟨i, h0, h1, hm⟩
    refine ⟨i.toNat, by omega, ?_⟩
    rw [Int.toNat_of_nonneg h0]
    exact hm

/-- What a pushed Match consists of. -/
theorem matchAt_eq_some {book : Int → Order} {sc : Scratch} {i : Int} {m : Match}
    (h : matchAt book sc i = some m) :
    (book i).buy_or_sell = true ∧ sc.lowestSellIndex (book i).ticker ≠ -1 ∧
      Double.ge (book i).price (sc.lowestSellPrice (book i).ticker) = true ∧
      m.buy = book i ∧ m.sell = book (sc.lowestSellIndex (book i).ticker) := by
  unfold matchAt at h
  split at h
  · rename_i hc
    simp only [Option.some.injEq] at h
    subst h
    exact ⟨hc.1, hc.2.1, hc.2.2, rfl, rfl⟩
  · simp at h

/-- When the first loop has recorded an index for `t`, it is the recorded
lowest sell of `t` and the recorded price is its price. -/
theorem recorded_of_index_ne (s : Store) (sc : Scratch)
    (hinv : FirstPassInv s.orderBook s.orderCount.toNat sc) (t : Int)
    (hne : sc.lowestSellIndex t ≠ -1) :
    s.RecordedSell t (sc.lowestSellIndex t) ∧
      (s.orderBook (sc.lowestSellIndex t)).price = sc.lowestSellPrice t := by
  rcases hinv t with ⟨h1, _, _⟩ | ⟨h1, h2, h3, h4, h5, h6, h7, h8⟩
  · exact absurd h1 hne
  · refine ⟨⟨⟨h1, by omega, h3, h4⟩, by rw [h5]; exact h6, ?_, ?_⟩, h5⟩
    · rintro k ⟨hk0, hk1, hks, hkt⟩
      rw [h5]
      exact h7 k hk0 (by omega) hks hkt
    · rintro k ⟨hk0, _, hks, hkt⟩ hlt
      rw [h5]
      exact h8 k hk0 hlt hks hkt

/-- When the first loop has recorded no index for `t`, no Sell order on `t`
is priced below `1e9`. -/
theorem no_cheap_sell_of_index_eq (s : Store) (sc : Scratch)
    (hinv : FirstPassInv s.orderBook s.orderCount.toNat sc) (t : Int)
    (heq : sc.lowestSellIndex t = -1) (k : Int) (hk : s.SellOn t k) :
    Double.lt (s.orderBook k).price Double.sentinel = false := by
  rcases hinv t with ⟨_, _, h3⟩ | ⟨h1, _⟩
  · exact h3 k hk.1 (by have := hk.2.1; omega) hk.2.2.1 hk.2.2.2
  · omega

/-- The recorded lowest sell of a ticker is unique. -/
theorem Store.RecordedSell.unique {s : Store} {t j1 j2 : Int}
    (h1 : s.RecordedSell t j1) (h2 : s.RecordedSell t j2) : j1 = j2 := by
  have hp : (s.orderBook j1).price = (s.orderBook j2).price :=
    Double.eq_of_not_lt (Double.lt_ne_nan h1.2.1).1 (Double.lt_ne_nan h2.2.1).1
      (h2.2.2.1 j1 h1.1) (h1.2.2.1 j2 h2.1)
  rcases lt_trichotomy j1 j2 with h | h | h
  · exact absurd hp (h2.2.2.2 j1 h1.1 h)
  · exact h
  · exact absurd hp.symm (h1.2.2.2 j2 h2.1 h)

/-- Anatomy of a Match of round `i`: its buy is the Buy order at slot `i`,
its sell is the recorded lowest sell of that ticker, and the buy price is at
least the sell price. -/
theorem match_anatomy (s : Store) (sc : Scratch)
    (hinv : FirstPassInv s.orderBook s.orderCount.toNat sc) (i : Int) (m : Match)
    (h : matchAt s.orderBook sc i = some m) :
    ∃ j, (s.orderBook i).buy_or_sell = true ∧ m.buy = s.orderBook i ∧
      m.sell = s.orderBook j ∧ s.RecordedSell (s.orderBook i).ticker j ∧
      Double.ge (s.orderBook i).price (s.orderBook j).price = true := by
  obtain ⟨hb, hne, hge, hmb, hms⟩ := matchAt_eq_some h
  obtain ⟨hrec, hp⟩ := recorded_of_index_ne s sc hinv _ hne
  exact ⟨_, hb, hmb, hms, hrec, by rw [hp]; exact hge⟩

/-- A Buy order on a ticker with a recorded lowest sell it can pay is matched
with it in its round. -/
theorem matchAt_of_recorded (s : Store) (sc : Scratch)
    (hinv : FirstPassInv s.orderBook s.orderCount.toNat sc) (i j : Int)
    (hb : (s.orderBook i).buy_or_sell = true)
    (hrec : s.RecordedSell (s.orderBook i).ticker j)
    (hge : Double.ge (s.orderBook i).price (s.orderBook j).price = true) :
    matchAt s.orderBook sc i = some { buy := s.orderBook i, sell := s.orderBook j } := by
  have hne : sc.lowestSellIndex (s.orderBook i).ticker ≠ -1 := by
    intro heq
    have := no_cheap_sell_of_index_eq s sc hinv _ heq j hrec.1
    rw [hrec.2.1] at this
    exact absurd this (by simp)
  obtain ⟨hrec2, hp⟩ := recorded_of_index_ne s sc hinv _ hne
  have hj : sc.lowestSellIndex (s.orderBook i).ticker = j := hrec2.unique hrec
  have hge2 : Double.ge (s.orderBook i).price
      (sc.lowestSellPrice (s.orderBook i).ticker) = true := by
    rw [← hp, hj]; exact hge
  unfold matchAt
  rw [if_pos ⟨hb, hne, hge2⟩, hj]

/-- A lowest-priced Sell order priced below `1e9` has the price of the
recorded lowest sell, which then exists. -/
theorem recorded_of_lowest (s : Store) (sc : Scratch)
    (hinv : FirstPassInv s.orderBook s.orderCount.toNat sc) (t j : Int)
    (hlow : s.LowestSellOn t j)
    (hlt : Double.lt (s.orderBook j).price Double.sentinel = true) :
    ∃ j0, s.RecordedSell t j0 ∧ (s.orderBook j0).price = (s.orderBook j).price := by
  have hne : sc.lowestSellIndex t ≠ -1 := by
    intro heq
    have := no_cheap_sell_of_index_eq s sc hinv t heq j hlow.1
    rw [hlt] at this
    exact absurd this (by simp)
  obtain ⟨hrec, _⟩ := recorded_of_index_ne s sc hinv t hne
  refine ⟨_, hrec, ?_⟩
  exact Double.eq_of_not_lt (Double.lt_ne_nan hrec.2.1).1 (Double.lt_ne_nan hlt).1
    (hlow.2 _ hrec.1) (hrec.2.2.1 j hlow.1)

/-! ## Facts about the concrete stores -/

theorem tieStore_tickers : tieStore.TickersInRange := by
  intro i h0 h1
  have h4 : i < 4 := h1
  have : i = 0 ∨ i = 1 ∨ i = 2 ∨ i = 3 := by omega
  rcases this with h | h | h | h <;> subst h <;> decide

theorem tieStore_ids : tieStore.IdsAreSlots := by
  intro i h0 h1
  have h4 : i < 4 := h1
  have : i = 0 ∨ i = 1 ∨ i = 2 ∨ i = 3 := by omega
  rcases this with h | h | h | h <;> subst h <;> decide

theorem tieStore_valid : tieStore.Valid :=
  ⟨by decide, tieStore_tickers, tieStore_ids⟩

theorem tieStore_preconditions : tieStore.SubmitPreconditions := by
  intro i h0 h1
  have h4 : i < 4 := h1
  have : i = 0 ∨ i = 1 ∨ i = 2 ∨ i = 3 := by omega
  rcases this with h | h | h | h <;> subst h <;> decide

theorem tieStore_lowest : tieStore.LowestSellOn 5 2 := by
  refine ⟨by decide, ?_⟩
  rintro k ⟨h0, h1, _, _⟩
  have h4 : k < 4 := h1
  have : k = 0 ∨ k = 1 ∨ k = 2 ∨ k = 3 := by omega
  rcases this with h | h | h | h <;> subst h <;> decide

theorem dearStore_preconditions : dearStore.SubmitPreconditions := by
  intro i h0 h1
  have h2 : i < 2 := h1
  have : i = 0 ∨ i = 1 := by omega
  rcases this with h | h <;> subst h <;> decide

theorem dearStore_ids : dearStore.IdsAreSlots := by
  intro i h0 h1
  have h2 : i < 2 := h1
  have : i = 0 ∨ i = 1 := by omega
  rcases this with h | h <;> subst h <;> decide

theorem dearStore_lowest : dearStore.LowestSellOn 0 0 := by
  refine ⟨by decide, ?_⟩
  rintro k ⟨h0, h1, _, _⟩
  have h2 : k < 2 := h1
  have : k = 0 ∨ k = 1 := by omega
  rcases this with h | h <;> subst h <;> decide

theorem dearStoreTwoBuys_valid : dearStoreTwoBuys.Valid := by
  refine ⟨by decide, ?_, ?_⟩ <;>
  · intro i h0 h1
    have h3 : i < 3 := h1
    have : i = 0 ∨ i = 1 ∨ i = 2 := by omega
    rcases this with h | h | h <;> subst h <;> decide

theorem dearStoreTwoBuys_lowest : dearStoreTwoBuys.LowestSellOn 7 0 := by
  refine ⟨by decide, ?_⟩
  rintro k ⟨h0, h1, _, _⟩
  have h3 : k < 3 := h1
  have : k = 0 ∨ k = 1 ∨ k = 2 := by omega
  rcases this with h | h | h <;> subst h <;> decide

theorem mixedStore_valid : mixedStore.Valid := by
  refine ⟨by decide, ?_, ?_⟩ <;>
  · intro i h0 h1
    have h5 : i < 5 := h1
    have : i = 0 ∨ i = 1 ∨ i = 2 ∨ i = 3 ∨ i = 4 := by omega
    rcases this with h | h | h | h | h <;> subst h <;> decide

theorem mixedStore_lowest : mixedStore.LowestSellOn 1 0 := by
  refine ⟨by decide, ?_⟩
  rintro k ⟨h0, h1, hs, _⟩
  have h5 : k < 5 := h1
  have : k = 0 ∨ k = 1 ∨ k = 2 ∨ k = 3 ∨ k = 4 := by omega
  rcases this with h | h | h | h | h <;> subst h <;>
    first | decide | exact absurd hs (by decide)

/-! ## The match pass: soundness of every Match -/

/-- Claim C1.  On a store within capacity whose written orders all have their
ticker in range, `matchOrder` returns, and every Match it returns pairs a Buy
order of the store with a Sell order of the store on the same ticker, the buy
price being at least the sell price, and no Sell order of the store on that
ticker is strictly cheaper than the matched one. -/
theorem matchOrder_pairs_buy_with_lowest_sell (s : Store)
    (hcap : s.orderCount ≤ MAX_ORDERS) (htick : s.TickersInRange) :
    ∃ ms, matchOrder s = .ok ms ∧ ∀ m ∈ ms,
      m.buy.buy_or_sell = true ∧ m.sell.buy_or_sell = false ∧
      m.buy.ticker = m.sell.ticker ∧
      (∃ i, s.Written i ∧ s.orderBook i = m.buy) ∧
      (∃ j, s.Written j ∧ s.orderBook j = m.sell) ∧
      Double.ge m.buy.price m.sell.price = true ∧
      ∀ k, s.SellOn m.sell.ticker k →
        Double.lt (s.orderBook k).price m.sell.price = false := by
  obtain ⟨sc, hinv, heq⟩ := matchOrder_eq s hcap htick
  refine ⟨_, heq, ?_⟩
  intro m hm
  obtain ⟨i, h0, h1, hmi⟩ := (mem_matches_iff _ _ _ _).1 hm
  obtain ⟨j, hb, hmb, hms, hrec, hge⟩ := match_anatomy s sc hinv i m hmi
  obtain ⟨⟨hj0, hj1, hjs, hjt⟩, _, hmin, _⟩ := hrec
  rw [hmb, hms]
  refine ⟨hb, hjs, hjt.symm, ⟨i, ⟨h0, h1⟩, rfl⟩, ⟨j, ⟨hj0, hj1⟩, rfl⟩, hge, ?_⟩
  intro k hk
  rw [hjt] at hk
  exact hmin k hk

/-- Claim C1 at the store `tieStore`. -/
theorem matchOrder_pairs_buy_with_lowest_sell_witness :
    tieStore.orderCount ≤ MAX_ORDERS ∧ tieStore.TickersInRange ∧
    ∃ ms, matchOrder tieStore = .ok ms ∧ ∀ m ∈ ms,
      m.buy.buy_or_sell = true ∧ m.sell.buy_or_sell = false ∧
      m.buy.ticker = m.sell.ticker ∧
      (∃ i, tieStore.Written i ∧ tieStore.orderBook i = m.buy) ∧
      (∃ j, tieStore.Written j ∧ tieStore.orderBook j = m.sell) ∧
      Double.ge m.buy.price m.sell.price = true ∧
      ∀ k, tieStore.SellOn m.sell.ticker k →
        Double.lt (tieStore.orderBook k).price m.sell.price = false :=
  ⟨by decide, tieStore_tickers,
    matchOrder_pairs_buy_with_lowest_sell tieStore (by decide) tieStore_tickers⟩

/-! ## The match pass: order of the output -/

/-- When the scanned slots carry their index as `orderId`, the buy ids of the
pushed Matches are strictly increasing. -/
theorem buy_ids_pairwise (book : Int → Order) (sc : Scratch) (n : Nat)
    (hid : ∀ i : Int, 0 ≤ i → i < n → (book i).orderId = i) :
    List.Pairwise (fun a b : Int => a < b)
      (((List.range n).filterMap (fun k : Nat => matchAt book sc (k : Int))).map
        (fun m => m.buy.orderId)) := by
  induction n with
  | zero => simp
  | succ n ih =>
    have hprev := ih (fun i h0 h1 => hid i h0 (by push_cast; omega))
    rw [List.range_succ, List.filterMap_append, List.map_append, List.pairwise_append]
    refine ⟨hprev, ?_, ?_⟩
    · cases h : matchAt book sc (n : Int) <;> simp [List.filterMap, h]
    · intro a ha b hb
      simp only [List.mem_map, List.mem_filterMap, List.mem_range] at ha
      obtain ⟨m, ⟨k, hk, hm⟩, rfl⟩ := ha
      have hmb := (matchAt_eq_some hm).2.2.2.1
      have hka : m.buy.orderId = k := by
        rw [hmb]; exact hid k (Int.natCast_nonneg k) (by push_cast; omega)
      cases h : matchAt book sc (n : Int) with
      | none => simp [List.filterMap, h] at hb
      | some m2 =>
        simp only [List.filterMap, h, List.map_cons, List.map_nil, List.mem_singleton] at hb
        have hm2 := (matchAt_eq_some h).2.2.2.1
        have hnb : m2.buy.orderId = n := by
          rw [hm2]; exact hid n (Int.natCast_nonneg n) (by push_cast; omega)
        rw [hb, hka, hnb]
        exact_mod_cast hk

/-- Strictly increasing buy ids leave no Buy order in two Matches. -/
theorem buys_nodup_of_ids_pairwise (ms : List Match)
    (h : List.Pairwise (fun a b : Int => a < b) (ms.map (fun m => m.buy.orderId))) :
    (ms.map Match.buy).Nodup := by
  have h1 : (ms.map (fun m => m.buy.orderId)).Nodup := h.imp (fun hab => ne_of_lt hab)
  have h2 : ((ms.map Match.buy).map Order.orderId).Nodup := by
    rw [List.map_map]; exact h1
  exact List.Nodup.of_map _ h2

/-! ## The match pass: which Buy orders are matched -/

/-- Claim C2 fails as stated: in `dearStore`, which is within capacity and
meets the submit preconditions, the Buy order at slot 1 is on a ticker whose
lowest Sell price is `2e9` and bids `2e9`, yet `matchOrder` returns no Match
at all: a Sell order priced at `1e9` or more is never recorded. -/
theorem dear_buy_is_not_matched :
    dearStore.orderCount ≤ MAX_ORDERS ∧ dearStore.SubmitPreconditions ∧
    dearStore.Written 1 ∧ (dearStore.orderBook 1).buy_or_sell = true ∧
    dearStore.LowestSellOn (dearStore.orderBook 1).ticker 0 ∧
    Double.ge (dearStore.orderBook 1).price (dearStore.orderBook 0).price = true ∧
    matchOrder dearStore = .ok [] ∧
    ∀ ms, matchOrder dearStore = .ok ms → ¬ ∃ m, m ∈ ms ∧ m.buy = dearStore.orderBook 1 := by
  have hrun : matchOrder dearStore = .ok [] := rfl
  refine ⟨by decide, dearStore_preconditions, by decide, by decide, dearStore_lowest,
    by decide, hrun, ?_⟩
  intro ms hms
  rw [hrun] at hms
  cases hms
  simp

/-- Claim C2, amended.  On a store within capacity whose written orders meet
the submit preconditions, every Buy order whose ticker has a Sell order, whose
price is at least the lowest Sell price on that ticker, that lowest price
being strictly below `1e9`, is the buy of exactly one Match of the output
of `matchOrder`; and that Match occurs exactly once in the output when the
written orders carry their slot index as `orderId`. -/
theorem eligible_buy_matched_once (s : Store)
    (hcap : s.orderCount ≤ MAX_ORDERS) (hpre : s.SubmitPreconditions) (i j : Int)
    (hi : s.Written i) (hb : (s.orderBook i).buy_or_sell = true)
    (hlow : s.LowestSellOn (s.orderBook i).ticker j)
    (hge : Double.ge (s.orderBook i).price (s.orderBook j).price = true)
    (hlt : Double.lt (s.orderBook j).price Double.sentinel = true) :
    ∃ ms, matchOrder s = .ok ms ∧ (∃! m, m ∈ ms ∧ m.buy = s.orderBook i) ∧
      (s.IdsAreSlots → (ms.map Match.buy).count (s.orderBook i) = 1) := by
  have htick : s.TickersInRange := fun k h0 h1 => (hpre k h0 h1).1
  obtain ⟨sc, hinv, heq⟩ := matchOrder_eq s hcap htick
  obtain ⟨j0, hrec, hp⟩ := recorded_of_lowest s sc hinv _ j hlow hlt
  have hmi := matchAt_of_recorded s sc hinv i j0 hb hrec (by rw [hp]; exact hge)
  have hmem : ({ buy := s.orderBook i, sell := s.orderBook j0 } : Match) ∈
      (List.range s.orderCount.toNat).filterMap
        (fun k : Nat => matchAt s.orderBook sc (k : Int)) :=
    (mem_matches_iff _ _ _ _).2 ⟨i, hi.1, hi.2, hmi⟩
  refine ⟨_, heq, ⟨_, ⟨hmem, rfl⟩, ?_⟩, ?_⟩
  · rintro m ⟨hm, hmbuy⟩
    obtain ⟨i2, _, _, hmi2⟩ := (mem_matches_iff _ _ _ _).1 hm
    obtain ⟨j2, _, hmb2, hms2, hrec2, _⟩ := match_anatomy s sc hinv i2 m hmi2
    have hsame : s.orderBook i2 = s.orderBook i := by rw [← hmb2, hmbuy]
    rw [hsame] at hrec2
    have hj : j2 = j0 := hrec2.unique hrec
    cases m
    simp only at hmbuy hms2
    rw [hmbuy, hms2, hj]
  · intro hids
    have hsorted := buy_ids_pairwise s.orderBook sc s.orderCount.toNat
      (fun k h0 h1 => hids k h0 (by omega))
    apply List.count_eq_one_of_mem (buys_nodup_of_ids_pairwise _ hsorted)
    exact List.mem_map.2 ⟨_, hmem, rfl⟩

/-- Claim C2 (amended) at the Buy order of slot 3 of `tieStore`, with the
lowest-priced Sell order of slot 2. -/
theorem eligible_buy_matched_once_witness :
    tieStore.orderCount ≤ MAX_ORDERS ∧ tieStore.SubmitPreconditions ∧
    tieStore.Written 3 ∧ (tieStore.orderBook 3).buy_or_sell = true ∧
    tieStore.LowestSellOn (tieStore.orderBook 3).ticker 2 ∧
    Double.ge (tieStore.orderBook 3).price (tieStore.orderBook 2).price = true ∧
    Double.lt (tieStore.orderBook 2).price Double.sentinel = true ∧
    ∃ ms, matchOrder tieStore = .ok ms ∧ (∃! m, m ∈ ms ∧ m.buy = tieStore.orderBook 3) ∧
      (tieStore.IdsAreSlots → (ms.map Match.buy).count (tieStore.orderBook 3) = 1) :=
  ⟨by decide, tieStore_preconditions, by decide, by decide, tieStore_lowest, by decide,
    by decide,
    eligible_buy_matched_once tieStore (by decide) tieStore_preconditions 3 2 (by decide)
      (by decide) tieStore_lowest (by decide) (by decide)⟩

/-- Claim C3.  On a valid store `matchOrder` returns, and for every Match it
returns no Sell order on the matched sell's ticker with the matched sell's
price sits at a slot below the matched sell's `orderId`: among the Sell orders
of least price the earliest one is matched.  For sells on ticker 5 priced 30,
20, 20 submitted to slots 0, 1, 2 and a buy on ticker 5 priced 25 submitted to
slot 3, of any quantities, the output is the single Match of slot 3 with
slot 1. -/
theorem matched_sell_is_earliest_of_its_price :
    (∀ s : Store, s.Valid → ∃ ms, matchOrder s = .ok ms ∧ ∀ m ∈ ms, ∀ k,
      s.SellOn m.sell.ticker k → (s.orderBook k).price = m.sell.price →
        ¬ k < m.sell.orderId) ∧
    (∀ q0 q1 q2 q3 : Int, ∃ st, runCalls Store.empty
        [⟨false, 5, q0, Double.fin 30⟩, ⟨false, 5, q1, Double.fin 20⟩,
         ⟨false, 5, q2, Double.fin 20⟩, ⟨true, 5, q3, Double.fin 25⟩] = .ok st ∧
      matchOrder st = .ok [{ buy := Order.make 3 true 5 q3 (Double.fin 25),
                             sell := Order.make 1 false 5 q1 (Double.fin 20) }]) := by
  constructor
  · rintro s ⟨hcap, htick, hids⟩
    obtain ⟨sc, hinv, heq⟩ := matchOrder_eq s hcap htick
    refine ⟨_, heq, ?_⟩
    intro m hm k hk hprice hlt
    obtain ⟨i, _, _, hmi⟩ := (mem_matches_iff _ _ _ _).1 hm
    obtain ⟨j, _, _, hms, hrec, _⟩ := match_anatomy s sc hinv i m hmi
    have hjid : m.sell.orderId = j := by
      rw [hms]; exact hids j hrec.1.1 hrec.1.2.1
    have hjt : m.sell.ticker = (s.orderBook i).ticker := by
      rw [hms]; exact hrec.1.2.2.2
    rw [hjt] at hk
    rw [hjid] at hlt
    rw [hms] at hprice
    exact hrec.2.2.2 k hk hlt hprice
  · exact fun _ _ _ _ => ⟨_, rfl, rfl⟩

/-- Claim C3 at the store `tieStore`. -/
theorem matched_sell_is_earliest_of_its_price_witness :
    tieStore.Valid ∧
    matchOrder tieStore =
      .ok [{ buy := tieStore.orderBook 3, sell := tieStore.orderBook 1 }] ∧
    ∃ ms, matchOrder tieStore = .ok ms ∧ ∀ m ∈ ms, ∀ k,
      tieStore.SellOn m.sell.ticker k → (tieStore.orderBook k).price = m.sell.price →
        ¬ k < m.sell.orderId :=
  ⟨tieStore_valid, rfl, matched_sell_is_earliest_of_its_price.1 tieStore tieStore_valid⟩

/-- Claim C4.  On a valid store `matchOrder` returns, and a Buy order whose
ticker has no Sell order in the store, or whose price is strictly below the
lowest Sell price on its ticker, is the buy of no Match of the output. -/
theorem ineligible_buy_is_not_matched (s : Store) (hv : s.Valid) (i : Int)
    (_hi : s.Written i) (_hb : (s.orderBook i).buy_or_sell = true)
    (hno : (¬ ∃ j, s.SellOn (s.orderBook i).ticker j) ∨
      ∃ j, s.LowestSellOn (s.orderBook i).ticker j ∧
        Double.lt (s.orderBook i).price (s.orderBook j).price = true) :
    ∃ ms, matchOrder s = .ok ms ∧ ∀ m ∈ ms, m.buy ≠ s.orderBook i := by
  obtain ⟨hcap, htick, _⟩ := hv
  obtain ⟨sc, hinv, heq⟩ := matchOrder_eq s hcap htick
  refine ⟨_, heq, ?_⟩
  intro m hm hmbuy
  obtain ⟨i2, _, _, hmi2⟩ := (mem_matches_iff _ _ _ _).1 hm
  obtain ⟨j2, _, hmb2, _, hrec2, hge2⟩ := match_anatomy s sc hinv i2 m hmi2
  have hsame : s.orderBook i2 = s.orderBook i := by rw [← hmb2, hmbuy]
  rw [hsame] at hrec2 hge2
  rcases hno with hnone | ⟨j, hlow, hlt⟩
  · exact hnone ⟨j2, hrec2.1⟩
  · have hnan := Double.lt_ne_nan hlt
    obtain ⟨_, hj2nan, hnlt⟩ := (Double.ge_iff _ _).1 hge2
    have h1 := hlow.2 j2 hrec2.1
    have h2 := hrec2.2.2.1 j hlow.1
    have hpeq := Double.eq_of_not_lt hj2nan hnan.2 h1 h2
    rw [hpeq, hlt] at hnlt
    exact absurd hnlt (by simp)

/-- Claim C4 at the Buy order of slot 1 of `mixedStore`, which bids 40
against a lowest Sell price of 50. -/
theorem ineligible_buy_is_not_matched_witness :
    mixedStore.Valid ∧ mixedStore.Written 1 ∧ (mixedStore.orderBook 1).buy_or_sell = true ∧
    (∃ j, mixedStore.LowestSellOn (mixedStore.orderBook 1).ticker j ∧
      Double.lt (mixedStore.orderBook 1).price (mixedStore.orderBook j).price = true) ∧
    ∃ ms, matchOrder mixedStore = .ok ms ∧ ∀ m ∈ ms, m.buy ≠ mixedStore.orderBook 1 :=
  ⟨mixedStore_valid, by decide, by decide, ⟨0, mixedStore_lowest, by decide⟩,
    ineligible_buy_is_not_matched mixedStore mixedStore_valid 1 (by decide) (by decide)
      (Or.inr ⟨0, mixedStore_lowest, by decide⟩)⟩

/-! ## The match pass: one sell for all the buys of a ticker -/

/-- Claim C6 fails as stated: `dearStoreTwoBuys` is a valid store whose two
distinct Buy orders on ticker 7 both bid `3e9`, above the lowest Sell price
`2e9` of that ticker, yet `matchOrder` returns no Match. -/
theorem dear_buys_share_no_sell :
    dearStoreTwoBuys.Valid ∧
    dearStoreTwoBuys.Written 1 ∧ dearStoreTwoBuys.Written 2 ∧
    (dearStoreTwoBuys.orderBook 1).buy_or_sell = true ∧
    (dearStoreTwoBuys.orderBook 2).buy_or_sell = true ∧
    dearStoreTwoBuys.orderBook 1 ≠ dearStoreTwoBuys.orderBook 2 ∧
    (dearStoreTwoBuys.orderBook 1).ticker = 7 ∧ (dearStoreTwoBuys.orderBook 2).ticker = 7 ∧
    dearStoreTwoBuys.LowestSellOn 7 0 ∧
    Double.ge (dearStoreTwoBuys.orderBook 1).price (dearStoreTwoBuys.orderBook 0).price = true ∧
    Double.ge (dearStoreTwoBuys.orderBook 2).price (dearStoreTwoBuys.orderBook 0).price = true ∧
    matchOrder dearStoreTwoBuys = .ok [] :=
  ⟨dearStoreTwoBuys_valid, by decide, by decide, by decide, by decide, by decide, by decide,
    by decide, dearStoreTwoBuys_lowest, by decide, by decide, rfl⟩

/-- Claim C6, amended.  On a valid store `matchOrder` returns; any two Matches
of its output whose buy orders have the same ticker carry the same sell order
(hence the same sell `orderId`); and two distinct written Buy orders on one
ticker, both priced at or above that ticker's lowest Sell price, that lowest
price being strictly below `1e9`, each have their own Match in the output,
the two Matches carrying one and the same lowest-priced Sell order. -/
theorem same_ticker_buys_share_one_sell (s : Store) (hv : s.Valid) :
    ∃ ms, matchOrder s = .ok ms ∧
      (∀ m1 ∈ ms, ∀ m2 ∈ ms, m1.buy.ticker = m2.buy.ticker →
        m1.sell = m2.sell ∧ m1.sell.orderId = m2.sell.orderId) ∧
      (∀ i1 i2 j t, s.Written i1 → s.Written i2 → i1 ≠ i2 →
        (s.orderBook i1).buy_or_sell = true → (s.orderBook i2).buy_or_sell = true →
        (s.orderBook i1).ticker = t → (s.orderBook i2).ticker = t →
        s.LowestSellOn t j →
        Double.ge (s.orderBook i1).price (s.orderBook j).price = true →
        Double.ge (s.orderBook i2).price (s.orderBook j).price = true →
        Double.lt (s.orderBook j).price Double.sentinel = true →
        ∃ j0, s.LowestSellOn t j0 ∧
          ({ buy := s.orderBook i1, sell := s.orderBook j0 } : Match) ∈ ms ∧
          ({ buy := s.orderBook i2, sell := s.orderBook j0 } : Match) ∈ ms ∧
          s.orderBook i1 ≠ s.orderBook i2) := by
  obtain ⟨hcap, htick, hids⟩ := hv
  obtain ⟨sc, hinv, heq⟩ := matchOrder_eq s hcap htick
  refine ⟨_, heq, ?_, ?_⟩
  · intro m1 hm1 m2 hm2 ht
    obtain ⟨i1, _, _, hmi1⟩ := (mem_matches_iff _ _ _ _).1 hm1
    obtain ⟨i2, _, _, hmi2⟩ := (mem_matches_iff _ _ _ _).1 hm2
    obtain ⟨j1, _, hmb1, hms1, hrec1, _⟩ := match_anatomy s sc hinv i1 m1 hmi1
    obtain ⟨j2, _, hmb2, hms2, hrec2, _⟩ := match_anatomy s sc hinv i2 m2 hmi2
    rw [hmb1, hmb2] at ht
    rw [ht] at hrec1
    have hj : j1 = j2 := hrec1.unique hrec2
    have hsell : m1.sell = m2.sell := by rw [hms1, hms2, hj]
    exact ⟨hsell, by rw [hsell]⟩
  · intro i1 i2 j t hw1 hw2 hne hb1 hb2 ht1 ht2 hlow hge1 hge2 hlt
    obtain ⟨j0, hrec, hp⟩ := recorded_of_lowest s sc hinv t j hlow hlt
    have hrec1 : s.RecordedSell (s.orderBook i1).ticker j0 := by rw [ht1]; exact hrec
    have hrec2 : s.RecordedSell (s.orderBook i2).ticker j0 := by rw [ht2]; exact hrec
    have hm1 := matchAt_of_recorded s sc hinv i1 j0 hb1 hrec1 (by rw [hp]; exact hge1)
    have hm2 := matchAt_of_recorded s sc hinv i2 j0 hb2 hrec2 (by rw [hp]; exact hge2)
    refine ⟨j0, ⟨hrec.1, hrec.2.2.1⟩,
      (mem_matches_iff _ _ _ _).2 ⟨i1, hw1.1, hw1.2, hm1⟩,
      (mem_matches_iff _ _ _ _).2 ⟨i2, hw2.1, hw2.2, hm2⟩, ?_⟩
    intro heq12
    have h1 := hids i1 hw1.1 hw1.2
    have h2 := hids i2 hw2.1 hw2.2
    rw [heq12, h2] at h1
    exact hne h1.symm

/-- Claim C6 (amended) at the store `mixedStore`. -/
theorem same_ticker_buys_share_one_sell_witness :
    mixedStore.Valid ∧
    ∃ ms, matchOrder mixedStore = .ok ms ∧
      (∀ m1 ∈ ms, ∀ m2 ∈ ms, m1.buy.ticker = m2.buy.ticker →
        m1.sell = m2.sell ∧ m1.sell.orderId = m2.sell.orderId) ∧
      (∀ i1 i2 j t, mixedStore.Written i1 → mixedStore.Written i2 → i1 ≠ i2 →
        (mixedStore.orderBook i1).buy_or_sell = true →
        (mixedStore.orderBook i2).buy_or_sell = true →
        (mixedStore.orderBook i1).ticker = t → (mixedStore.orderBook i2).ticker = t →
        mixedStore.LowestSellOn t j →
        Double.ge (mixedStore.orderBook i1).price (mixedStore.orderBook j).price = true →
        Double.ge (mixedStore.orderBook i2).price (mixedStore.orderBook j).price = true →
        Double.lt (mixedStore.orderBook j).price Double.sentinel = true →
        ∃ j0, mixedStore.LowestSellOn t j0 ∧
          ({ buy := mixedStore.orderBook i1, sell := mixedStore.orderBook j0 } : Match) ∈ ms ∧
          ({ buy := mixedStore.orderBook i2, sell := mixedStore.orderBook j0 } : Match) ∈ ms ∧
          mixedStore.orderBook i1 ≠ mixedStore.orderBook i2) :=
  ⟨mixedStore_valid, same_ticker_buys_share_one_sell mixedStore mixedStore_valid⟩

/-! ## The order store -/

theorem wrapInt32_of_inRange (x : Int) (h0 : -2147483648 ≤ x) (h1 : x < 2147483648) :
    wrapInt32 x = x := by
  unfold wrapInt32; omega

/-- A call that claims an index inside the array writes its order there. -/
theorem addOrder_accept (s : Store) (isBuy : Bool) (ticker quantity : Int) (price : Double)
    (h0 : 0 ≤ s.orderCount) (h1 : s.orderCount < MAX_ORDERS) :
    addOrder s isBuy ticker quantity price =
      .ok { orderCount := s.orderCount + 1,
            orderBook := Function.update s.orderBook s.orderCount
              (Order.make s.orderCount isBuy ticker quantity price) } := by
  have hw : wrapInt32 (s.orderCount + 1) = s.orderCount + 1 :=
    wrapInt32_of_inRange _ (by omega) (by unfold MAX_ORDERS at h1; omega)
  simp only [addOrder, fetch_add, ge_iff_le, not_le.2 h1, if_false, h0, if_true, hw]

/-- A call that claims an index at or beyond the capacity writes nothing. -/
theorem addOrder_reject (s : Store) (isBuy : Bool) (ticker quantity : Int) (price : Double)
    (h : MAX_ORDERS ≤ s.orderCount) :
    addOrder s isBuy ticker quantity price =
      .ok { orderCount := wrapInt32 (s.orderCount + 1), orderBook := s.orderBook } := by
  simp only [addOrder, fetch_add, ge_iff_le, h, if_true]

/-- A call that claims a negative index writes before the start of the array. -/
theorem addOrder_fault (s : Store) (isBuy : Bool) (ticker quantity : Int) (price : Double)
    (h : s.orderCount < 0) :
    addOrder s isBuy ticker quantity price = .error (Fault.orderBookIndex s.orderCount) := by
  have h1 : ¬ MAX_ORDERS ≤ s.orderCount := by unfold MAX_ORDERS; omega
  have h2 : ¬ 0 ≤ s.orderCount := by omega
  simp only [addOrder, fetch_add, ge_iff_le, h1, if_false, h2]

theorem runCalls_append (s : Store) (l1 l2 : List Call) :
    runCalls s (l1 ++ l2) =
      match runCalls s l1 with
      | .ok s1 => runCalls s1 l2
      | .error e => .error e := by
  induction l1 generalizing s with
  | nil => simp [runCalls]
  | cons c cs ih =>
    simp only [List.cons_append, runCalls]
    cases submit s c with
    | ok s1 => exact ih s1
    | error e => rfl

theorem bookOf_snoc_accept (l : List Call) (c : Call) (h : (l.length : Int) < MAX_ORDERS) :
    bookOf (l ++ [c]) = Function.update (bookOf l) (l.length : Int)
      (Order.make (l.length : Int) c.isBuy c.ticker c.quantity c.price) := by
  funext i
  by_cases hi : i = (l.length : Int)
  · subst hi
    have h0 : (0 : Int) ≤ (l.length : Int) := Int.natCast_nonneg _
    simp [bookOf, h0, h]
  · rw [Function.update_noteq hi]
    unfold bookOf
    by_cases hr : 0 ≤ i ∧ i < MAX_ORDERS
    · simp only [hr, and_self, if_true]
      by_cases hlt : i.toNat < l.length
      · rw [List.getElem?_append_left hlt]
      · have hgt : l.length < i.toNat := by omega
        have h1 : (l ++ [c])[i.toNat]? = none := by
          apply List.getElem?_eq_none; simp; omega
        have h2 : l[i.toNat]? = none := by
          apply List.getElem?_eq_none; omega
        rw [h1, h2]
    · simp only [hr, if_false]

theorem bookOf_snoc_reject (l : List Call) (c : Call) (h : MAX_ORDERS ≤ (l.length : Int)) :
    bookOf (l ++ [c]) = bookOf l := by
  funext i
  unfold bookOf
  by_cases hr : 0 ≤ i ∧ i < MAX_ORDERS
  · simp only [hr, and_self, if_true]
    have hlt : i.toNat < l.length := by omega
    rw [List.getElem?_append_left hlt]
  · simp only [hr, if_false]

/-- The store after fewer than `2^31` calls from the empty store: no call
faults, the counter is the number of calls, and the array is `bookOf calls`. -/
theorem runCalls_empty_eq (calls : List Call) (h : (calls.length : Int) ≤ 2147483647) :
    runCalls Store.empty calls =
      .ok { orderCount := (calls.length : Int), orderBook := bookOf calls } := by
  induction calls using List.reverseRecOn with
  | nil =>
    have : bookOf [] = Store.empty.orderBook := by
      funext i; simp [bookOf, Store.empty]
    simp [runCalls, this, Store.empty]
  | append_singleton l c ih =>
    have hl : (l.length : Int) ≤ 2147483647 := by
      simp only [List.length_append, List.length_singleton] at h; omega
    have hlen : (((l ++ [c]).length : Nat) : Int) = (l.length : Int) + 1 := by simp
    rw [runCalls_append, ih hl]
    simp only [runCalls, submit]
    by_cases hc : (l.length : Int) < MAX_ORDERS
    · have hacc := addOrder_accept { orderCount := (l.length : Int), orderBook := bookOf l }
        c.isBuy c.ticker c.quantity c.price (Int.natCast_nonneg _) hc
      rw [hacc, bookOf_snoc_accept l c hc, hlen]
    · have hc2 : MAX_ORDERS ≤ (l.length : Int) := not_lt.1 hc
      have hrej := addOrder_reject { orderCount := (l.length : Int), orderBook := bookOf l }
        c.isBuy c.ticker c.quantity c.price hc2
      rw [hrej, bookOf_snoc_reject l c hc2, hlen]
      simp only
      rw [wrapInt32_of_inRange _ (by omega) (by omega)]

theorem bookOf_of_lt (calls : List Call) (k : Nat) (hk : k < calls.length)
    (hcap : (k : Int) < MAX_ORDERS) :
    bookOf calls (k : Int) =
      Order.make (k : Int) calls[k].isBuy calls[k].ticker calls[k].quantity calls[k].price := by
  have h0 : (0 : Int) ≤ (k : Int) := Int.natCast_nonneg _
  simp [bookOf, h0, hcap, List.getElem?_eq_getElem hk]

/-- The store after exactly `2^31` calls from the empty store: the counter
has wrapped to the least `int`. -/
theorem runCalls_empty_wrap (calls : List Call) (h : calls.length = 2147483648) :
    runCalls Store.empty calls =
      .ok { orderCount := -2147483648, orderBook := bookOf calls } := by
  rcases List.eq_nil_or_concat calls with hnil | ⟨l, c, hlc⟩
  · subst hnil; exact absurd h (by decide)
  · rw [List.concat_eq_append] at hlc
    subst hlc
    have hl : l.length = 2147483647 := by
      simp only [List.length_append, List.length_singleton] at h; omega
    have hli : (l.length : Int) = 2147483647 := by rw [hl]; rfl
    have hc2 : MAX_ORDERS ≤ (l.length : Int) := by rw [hli]; decide
    have hrej := addOrder_reject { orderCount := (l.length : Int), orderBook := bookOf l }
      c.isBuy c.ticker c.quantity c.price hc2
    rw [runCalls_append, runCalls_empty_eq l (by omega)]
    simp only [runCalls, submit]
    rw [hrej, bookOf_snoc_reject l c hc2]
    simp only [hli]
    rfl

/-- More than `2^31` calls from the empty store: call number `2^31` claims
the index `-2^31` and writes before the start of the array. -/
theorem runCalls_empty_fault (calls : List Call) (h : 2147483648 < calls.length) :
    runCalls Store.empty calls = .error (Fault.orderBookIndex (-2147483648)) := by
  have hsplit : calls = calls.take 2147483648 ++ calls.drop 2147483648 :=
    (List.take_append_drop _ _).symm
  have htake : (calls.take 2147483648).length = 2147483648 := by
    rw [List.length_take]; omega
  have hdrop : (calls.drop 2147483648).length ≠ 0 := by
    rw [List.length_drop]; omega
  rw [hsplit, runCalls_append, runCalls_empty_wrap _ htake]
  cases hd : calls.drop 2147483648 with
  | nil => rw [hd] at hdrop; simp at hdrop
  | cons c rest =>
    simp only [runCalls, submit]
    have hf := addOrder_fault
      { orderCount := -2147483648, orderBook := bookOf (calls.take 2147483648) }
      c.isBuy c.ticker c.quantity c.price (show (-2147483648 : Int) < 0 by decide)
    rw [hf]

/-- The stores reachable from the empty store by calls of `addOrder`. -/
theorem reachable_cases (calls : List Call) (s : Store)
    (h : runCalls Store.empty calls = .ok s) :
    (s = { orderCount := (calls.length : Int), orderBook := bookOf calls } ∧
      (calls.length : Int) ≤ 2147483647) ∨
    (s = { orderCount := -2147483648, orderBook := bookOf calls } ∧
      calls.length = 2147483648) := by
  rcases Nat.lt_trichotomy calls.length 2147483648 with hlt | heq | hgt
  · left
    have hle : (calls.length : Int) ≤ 2147483647 := by omega
    rw [runCalls_empty_eq calls hle] at h
    cases h
    exact ⟨rfl, hle⟩
  · right
    rw [runCalls_empty_wrap calls heq] at h
    cases h
    exact ⟨rfl, heq⟩
  · rw [runCalls_empty_fault calls hgt] at h
    cases h

/-- In a store reachable from the empty store, every written slot inside the
array carries its index as `orderId`. -/
theorem reachable_ids (calls : List Call) (s : Store)
    (h : runCalls Store.empty calls = .ok s) (i : Int) (h0 : 0 ≤ i)
    (h1 : i < s.orderCount) (h2 : i < MAX_ORDERS) : (s.orderBook i).orderId = i := by
  rcases reachable_cases calls s h with ⟨hs, _⟩ | ⟨hs, _⟩
  · subst hs
    have hk : i.toNat < calls.length := by simp only at h1; omega
    have hi : ((i.toNat : Nat) : Int) = i := Int.toNat_of_nonneg h0
    have := bookOf_of_lt calls i.toNat hk (by rw [hi]; exact h2)
    rw [hi] at this
    simp only [this, Order.make]
  · subst hs
    simp only at h1
    omega

/-- Claim C7.  From the empty store, any sequence of at most `MAX_ORDERS`
calls of `addOrder` runs without fault; call number `k` (from 0) finds the
counter at `k`, claims index `k` and writes its order at slot `k`; afterwards
the counter is the number of calls, slot `k` holds the order made of `k` and
the arguments of call number `k`, and the ids assigned, in call order, are
`0, 1, .., n-1`. -/
theorem addOrder_calls_fill_slots_in_order (calls : List Call)
    (hn : (calls.length : Int) ≤ MAX_ORDERS) :
    ∃ s, runCalls Store.empty calls = .ok s ∧ s.orderCount = (calls.length : Int) ∧
      (∀ (k : Nat) (hk : k < calls.length),
        (∃ sk, runCalls Store.empty (calls.take k) = .ok sk ∧
          (fetch_add sk.orderCount 1).1 = (k : Int) ∧
          submit sk calls[k] = .ok
            { orderCount := (k : Int) + 1,
              orderBook := Function.update sk.orderBook (k : Int)
                (Order.make (k : Int) calls[k].isBuy calls[k].ticker calls[k].quantity
                  calls[k].price) }) ∧
        s.orderBook (k : Int) =
          Order.make (k : Int) calls[k].isBuy calls[k].ticker calls[k].quantity
            calls[k].price) ∧
      (List.range calls.length).map (fun k : Nat => (s.orderBook (k : Int)).orderId) =
        (List.range calls.length).map (fun k : Nat => (k : Int)) := by
  have hM : MAX_ORDERS = 10000 := rfl
  have hslot : ∀ (k : Nat) (hk : k < calls.length), bookOf calls (k : Int) =
      Order.make (k : Int) calls[k].isBuy calls[k].ticker calls[k].quantity calls[k].price :=
    fun k hk => bookOf_of_lt calls k hk (by omega)
  refine ⟨_, runCalls_empty_eq calls (by omega), rfl, ?_, ?_⟩
  · intro k hk
    have hlenk : (calls.take k).length = k := by rw [List.length_take]; omega
    refine ⟨⟨{ orderCount := ((calls.take k).length : Int),
               orderBook := bookOf (calls.take k) },
      runCalls_empty_eq (calls.take k) (by omega), ?_, ?_⟩, ?_⟩
    rotate_right
    · dsimp only
      exact hslot k hk
    · simp only [fetch_add, hlenk]
    · have hlen : (((calls.take k).length : Nat) : Int) = (k : Int) := by
        rw [List.length_take]; omega
      have hacc := addOrder_accept
        { orderCount := ((calls.take k).length : Int), orderBook := bookOf (calls.take k) }
        calls[k].isBuy calls[k].ticker calls[k].quantity calls[k].price
        (Int.natCast_nonneg _) (show ((calls.take k).length : Int) < MAX_ORDERS by omega)
      simp only [submit]
      rw [hacc]
      simp only [hlen]
  · apply List.map_congr_left
    intro k hk
    rw [List.mem_range] at hk
    show (bookOf calls (k : Int)).orderId = (k : Int)
    rw [hslot k hk]
    rfl

/-- Claim C7 at the four calls `tieCalls`. -/
theorem addOrder_calls_fill_slots_in_order_witness :
    (tieCalls.length : Int) ≤ MAX_ORDERS ∧
    ∃ s, runCalls Store.empty tieCalls = .ok s ∧ s.orderCount = (tieCalls.length : Int) ∧
      (∀ (k : Nat) (hk : k < tieCalls.length),
        (∃ sk, runCalls Store.empty (tieCalls.take k) = .ok sk ∧
          (fetch_add sk.orderCount 1).1 = (k : Int) ∧
          submit sk tieCalls[k] = .ok
            { orderCount := (k : Int) + 1,
              orderBook := Function.update sk.orderBook (k : Int)
                (Order.make (k : Int) tieCalls[k].isBuy tieCalls[k].ticker
                  tieCalls[k].quantity tieCalls[k].price) }) ∧
        s.orderBook (k : Int) =
          Order.make (k : Int) tieCalls[k].isBuy tieCalls[k].ticker tieCalls[k].quantity
            tieCalls[k].price) ∧
      (List.range tieCalls.length).map (fun k : Nat => (s.orderBook (k : Int)).orderId) =
        (List.range tieCalls.length).map (fun k : Nat => (k : Int)) :=
  ⟨by decide, addOrder_calls_fill_slots_in_order tieCalls (by decide)⟩

/-! ## When the match pass returns -/

/-- A loop that ends without fault ran every round without fault. -/
theorem forLoop_ok_round {σ : Type} (body : σ → Int → Except Fault σ) (n : Nat) (s s1 : σ)
    (h : forLoop body n s = .ok s1) (k : Nat) (hk : k < n) :
    ∃ sk sk1, forLoop body k s = .ok sk ∧ body sk (k : Int) = .ok sk1 := by
  induction n generalizing s1 with
  | zero => omega
  | succ n ih =>
    cases hn : forLoop body n s with
    | error e => simp [forLoop, hn] at h
    | ok s2 =>
      rw [forLoop_succ body n s s2 hn] at h
      rcases (show k < n ∨ k = n by omega) with hlt | heq
      · exact ih s2 hn hlt
      · subst heq; exact ⟨s2, s1, hn, h⟩

/-- A round of the first loop that does not fault read a slot inside the
array and, for a Sell order, a ticker in range. -/
theorem firstPassBody_ok (book : Int → Order) (sc sc1 : Scratch) (i : Int)
    (h : firstPassBody book sc i = .ok sc1) :
    (0 ≤ i ∧ i < MAX_ORDERS) ∧
      ((book i).buy_or_sell = false →
        0 ≤ (book i).ticker ∧ (book i).ticker < NUM_TICKERS) := by
  unfold firstPassBody at h
  by_cases hr : 0 ≤ i ∧ i < MAX_ORDERS
  · refine ⟨hr, fun hs => ?_⟩
    by_contra ht
    simp [hr, hs, ht] at h
  · simp [hr] at h

/-- A round of the second loop that does not fault read, for a Buy order, a
ticker in range. -/
theorem secondPassBody_ok (book : Int → Order) (sc : Scratch) (ms ms1 : List Match) (i : Int)
    (h : secondPassBody book sc ms i = .ok ms1) :
    (book i).buy_or_sell = true →
      0 ≤ (book i).ticker ∧ (book i).ticker < NUM_TICKERS := by
  unfold secondPassBody at h
  intro hb
  by_contra ht
  by_cases hr : 0 ≤ i ∧ i < MAX_ORDERS
  · simp [hr, hb, ht] at h
  · simp [hr] at h

/-- When `matchOrder` returns, the counter is within the capacity and every
written order has its ticker in range. -/
theorem matchOrder_ok_valid (s : Store) (ms : List Match) (h : matchOrder s = .ok ms) :
    s.orderCount ≤ MAX_ORDERS ∧ s.TickersInRange := by
  unfold matchOrder at h
  cases h1 : firstPass s.orderBook s.orderCount.toNat with
  | error e => simp [h1] at h
  | ok sc =>
    simp only [h1] at h
    unfold firstPass at h1
    constructor
    · by_contra hgt
      have hk : 10000 < s.orderCount.toNat := by unfold MAX_ORDERS at hgt; omega
      obtain ⟨sk, sk1, _, hbody⟩ := forLoop_ok_round _ _ _ _ h1 10000 hk
      have := (firstPassBody_ok _ _ _ _ hbody).1.2
      exact absurd this (by decide)
    · intro i h0 hlt
      have hk : i.toNat < s.orderCount.toNat := by omega
      have hi : ((i.toNat : Nat) : Int) = i := Int.toNat_of_nonneg h0
      obtain ⟨sk, sk1, _, hbody1⟩ := forLoop_ok_round _ _ _ _ h1 i.toNat hk
      obtain ⟨mk, mk1, _, hbody2⟩ := forLoop_ok_round _ _ _ _ h i.toNat hk
      rw [hi] at hbody1 hbody2
      cases hb : (s.orderBook i).buy_or_sell with
      | false => exact (firstPassBody_ok _ _ _ _ hbody1).2 hb
      | true => exact secondPassBody_ok _ _ _ _ _ hbody2 hb

/-- After at most `MAX_ORDERS` calls, all with a ticker in range, `matchOrder`
returns. -/
theorem matchOrder_returns_of_calls (calls : List Call) (s : Store)
    (hrun : runCalls Store.empty calls = .ok s) (hlen : (calls.length : Int) ≤ MAX_ORDERS)
    (hticks : ∀ c ∈ calls, 0 ≤ c.ticker ∧ c.ticker < NUM_TICKERS) :
    s.orderCount ≤ MAX_ORDERS ∧ s.TickersInRange ∧ ∃ ms, matchOrder s = .ok ms := by
  have hs : s = { orderCount := (calls.length : Int), orderBook := bookOf calls } := by
    rw [runCalls_empty_eq calls (by unfold MAX_ORDERS at hlen; omega)] at hrun
    cases hrun; rfl
  subst hs
  have htick : Store.TickersInRange
      { orderCount := (calls.length : Int), orderBook := bookOf calls } := by
    intro i h0 h1
    have hk : i.toNat < calls.length := by simp only at h1; omega
    have hi : ((i.toNat : Nat) : Int) = i := Int.toNat_of_nonneg h0
    have hb := bookOf_of_lt calls i.toNat hk (by rw [hi]; simp only at h1; omega)
    rw [hi] at hb
    simp only [hb, Order.make]
    exact hticks _ (List.getElem_mem _)
  obtain ⟨sc, _, heq⟩ := matchOrder_eq _ hlen htick
  exact ⟨hlen, htick, _, heq⟩

/-- Claim C5, amended.  After at most `MAX_ORDERS` calls of `addOrder` from
the empty store, all with a ticker in `[0, NUM_TICKERS)`, the calls leave a
store on which `matchOrder` returns, and the buy `orderId`s of the returned
Matches are strictly increasing along the sequence: the Matches come in
ascending buy slot order and no Buy order is in two of them. -/
theorem matchOrder_buy_ids_increasing (calls : List Call)
    (hlen : (calls.length : Int) ≤ MAX_ORDERS)
    (hticks : ∀ c ∈ calls, 0 ≤ c.ticker ∧ c.ticker < NUM_TICKERS) :
    ∃ s ms, runCalls Store.empty calls = .ok s ∧ matchOrder s = .ok ms ∧
      List.Pairwise (fun a b : Int => a < b) (ms.map (fun m => m.buy.orderId)) ∧
      (ms.map Match.buy).Nodup := by
  have hrun := runCalls_empty_eq calls (by unfold MAX_ORDERS at hlen; omega)
  obtain ⟨hcap, htick, _⟩ := matchOrder_returns_of_calls calls _ hrun hlen hticks
  obtain ⟨sc, _, heq⟩ := matchOrder_eq _ hcap htick
  have hsorted := buy_ids_pairwise (bookOf calls) sc (calls.length : Int).toNat
    (fun i h0 h1 => reachable_ids calls _ hrun i h0 (by simp only; omega)
      (by unfold MAX_ORDERS at *; omega))
  exact ⟨_, _, hrun, heq, hsorted, buys_nodup_of_ids_pairwise _ hsorted⟩

/-- Claim C5 (amended) at the five calls `mixedCalls`. -/
theorem matchOrder_buy_ids_increasing_witness :
    (mixedCalls.length : Int) ≤ MAX_ORDERS ∧
    (∀ c ∈ mixedCalls, 0 ≤ c.ticker ∧ c.ticker < NUM_TICKERS) ∧
    matchOrder { orderCount := (mixedCalls.length : Int), orderBook := bookOf mixedCalls } =
      .ok [{ buy := Order.make 3 true 1 3 (Double.fin 60),
             sell := Order.make 0 false 1 3 (Double.fin 50) },
           { buy := Order.make 4 true 1 3 (Double.fin 70),
             sell := Order.make 0 false 1 3 (Double.fin 50) }] ∧
    ∃ s ms, runCalls Store.empty mixedCalls = .ok s ∧ matchOrder s = .ok ms ∧
      List.Pairwise (fun a b : Int => a < b) (ms.map (fun m => m.buy.orderId)) ∧
      (ms.map Match.buy).Nodup :=
  ⟨by decide, by decide, rfl,
    matchOrder_buy_ids_increasing mixedCalls (by decide) (by decide)⟩

/-! ## Beyond the capacity -/

/-- On a store whose counter exceeds the capacity, the first loop of
`matchOrder` reads `orderBook[MAX_ORDERS]`, one past the end of the array. -/
theorem matchOrder_fault_beyond_capacity (s : Store) (h : MAX_ORDERS < s.orderCount)
    (htick : ∀ i : Int, 0 ≤ i → i < MAX_ORDERS →
      0 ≤ (s.orderBook i).ticker ∧ (s.orderBook i).ticker < NUM_TICKERS) :
    matchOrder s = .error (Fault.orderBookIndex MAX_ORDERS) := by
  have hM : MAX_ORDERS = ((10000 : Nat) : Int) := rfl
  obtain ⟨sc, hsc, _⟩ := firstPass_inv s.orderBook 10000 (by rw [hM])
    (fun i h0 h1 => htick i h0 (by rw [hM]; exact h1))
  unfold firstPass at hsc
  have hstep : forLoop (firstPassBody s.orderBook) (10000 + 1) Scratch.init =
      .error (Fault.orderBookIndex MAX_ORDERS) := by
    rw [forLoop_succ _ _ _ _ hsc, ← hM]
    simp [firstPassBody]
  have hn : s.orderCount.toNat = 10000 + 1 + (s.orderCount.toNat - 10001) := by
    rw [hM] at h; omega
  have hall := forLoop_error _ _ (s.orderCount.toNat - 10001) _ _ hstep
  rw [← hn] at hall
  simp only [matchOrder, firstPass, hall]

theorem unitCalls_tickers (n : Nat) (i : Int) (h0 : 0 ≤ i) (h1 : i < MAX_ORDERS) :
    0 ≤ (bookOf (List.replicate n unitCall) i).ticker ∧
      (bookOf (List.replicate n unitCall) i).ticker < NUM_TICKERS := by
  unfold bookOf
  simp only [h0, h1, and_self, if_true]
  cases hget : (List.replicate n unitCall)[i.toNat]? with
  | none => simp [Order.zero, NUM_TICKERS]
  | some c =>
    have hc : c = unitCall := by
      rw [List.getElem?_eq_some] at hget
      obtain ⟨_, hget⟩ := hget
      rw [← hget, List.getElem_replicate]
    subst hc
    simp [Order.make, unitCall, NUM_TICKERS]

/-- Claim C8, the code at its failing input: `2^31 + 1` calls of `addOrder`
from the empty store.  The first `2^31` calls run (the counter, incremented
by the rejected calls too, wraps to `-2^31`); the next call then claims the
index `-2^31`, passes the capacity test and writes before the array. -/
theorem addOrder_writes_out_of_bounds_after_wrap :
    runCalls Store.empty (List.replicate 2147483648 unitCall) =
      .ok { orderCount := -2147483648,
            orderBook := bookOf (List.replicate 2147483648 unitCall) } ∧
    runCalls Store.empty (List.replicate 2147483649 unitCall) =
      .error (Fault.orderBookIndex (-2147483648)) :=
  ⟨runCalls_empty_wrap _ (List.length_replicate _ _),
    runCalls_empty_fault _ (by rw [List.length_replicate]; exact Nat.lt_succ_self _)⟩

/-- Claim C9, the code at its failing input: after `MAX_ORDERS + 1` calls of
`addOrder` from the empty store the counter `orderCount`, which `main` prints
and `matchOrder` takes as its bound, is `10001`, not `min 10001 MAX_ORDERS`. -/
theorem orderCount_exceeds_capacity :
    ∃ s, runCalls Store.empty (List.replicate 10001 unitCall) = .ok s ∧
      s.orderCount = 10001 ∧
      s.orderCount ≠ min (((List.replicate 10001 unitCall).length : Nat) : Int) MAX_ORDERS ∧
      MAX_ORDERS < s.orderCount := by
  refine ⟨_, runCalls_empty_eq _ ?_, ?_, ?_, ?_⟩
  · rw [List.length_replicate]; decide
  · simp only [List.length_replicate]; rfl
  · simp only [List.length_replicate]; decide
  · simp only [List.length_replicate]; decide

/-- Claim C10, the code at its failing input: after `MAX_ORDERS + 1` calls of
`addOrder` within the submit preconditions, `matchOrder` reads
`orderBook[10000]`, outside the array. -/
theorem matchOrder_reads_out_of_bounds :
    ((0 ≤ unitCall.ticker ∧ unitCall.ticker < NUM_TICKERS) ∧ 0 < unitCall.quantity ∧
      Double.lt (Double.fin 0) unitCall.price = true) ∧
    ∃ s, runCalls Store.empty (List.replicate 10001 unitCall) = .ok s ∧
      matchOrder s = .error (Fault.orderBookIndex 10000) := by
  refine ⟨by decide, _, runCalls_empty_eq _ ?_, ?_⟩
  · rw [List.length_replicate]; decide
  · apply matchOrder_fault_beyond_capacity
    · simp only [List.length_replicate]; decide
    · intro i h0 h1
      dsimp only
      exact unitCalls_tickers 10001 i h0 h1

/-! ## Invariants of the order store -/

/-- A call of `addOrder` returns exactly when the counter is not negative. -/
theorem submit_returns (s : Store) (c : Call) (h : 0 ≤ s.orderCount) :
    ∃ s1, submit s c = .ok s1 := by
  by_cases hc : s.orderCount < MAX_ORDERS
  · exact ⟨_, addOrder_accept s c.isBuy c.ticker c.quantity c.price h hc⟩
  · exact ⟨_, addOrder_reject s c.isBuy c.ticker c.quantity c.price (not_lt.1 hc)⟩

/-- Claim C11.  In every store reached from the empty store by calls of
`addOrder`, every written slot `i` inside the array (`i < orderCount` and
`i < MAX_ORDERS`) holds an order whose `orderId` is `i`; every call of
`addOrder` that returns, accepted or rejected, preserves this; and a call
returns whenever the counter is not negative. -/
theorem written_ids_are_slots :
    (∀ calls s, runCalls Store.empty calls = .ok s → s.WrittenIdsAreSlots) ∧
    (∀ s c s1, s.WrittenIdsAreSlots → submit s c = .ok s1 → s1.WrittenIdsAreSlots) ∧
    (∀ s c, 0 ≤ s.orderCount → ∃ s1, submit s c = .ok s1) := by
  refine ⟨fun calls s h i h0 h1 h2 => reachable_ids calls s h i h0 h1 h2, ?_,
    fun s c h => submit_returns s c h⟩
  intro s c s1 hinv hsub i h0 h1 h2
  unfold submit at hsub
  by_cases hneg : s.orderCount < 0
  · rw [addOrder_fault s _ _ _ _ hneg] at hsub
    cases hsub
  · have hnn : 0 ≤ s.orderCount := not_lt.1 hneg
    by_cases hc : s.orderCount < MAX_ORDERS
    · rw [addOrder_accept s _ _ _ _ hnn hc] at hsub
      cases hsub
      simp only at h1 ⊢
      by_cases hi : i = s.orderCount
      · subst hi
        simp [Function.update_same, Order.make]
      · rw [Function.update_noteq hi]
        exact hinv i h0 (by omega) h2
    · rw [addOrder_reject s _ _ _ _ (not_lt.1 hc)] at hsub
      cases hsub
      exact hinv i h0 (by omega) h2

/-- Claim C11 at the store built by the calls `tieCalls` and one more call. -/
theorem written_ids_are_slots_witness :
    runCalls Store.empty tieCalls =
      .ok { orderCount := (tieCalls.length : Int), orderBook := bookOf tieCalls } ∧
    Store.WrittenIdsAreSlots
      { orderCount := (tieCalls.length : Int), orderBook := bookOf tieCalls } ∧
    ∀ s1, submit { orderCount := (tieCalls.length : Int), orderBook := bookOf tieCalls }
        unitCall = .ok s1 → s1.WrittenIdsAreSlots :=
  ⟨runCalls_empty_eq tieCalls (by decide),
    written_ids_are_slots.1 tieCalls _ (runCalls_empty_eq tieCalls (by decide)),
    fun s1 h => written_ids_are_slots.2.1 _ unitCall s1
      (written_ids_are_slots.1 tieCalls _ (runCalls_empty_eq tieCalls (by decide))) h⟩

theorem bookOf_append_of_lt (l1 l2 : List Call) (i : Int) (h0 : 0 ≤ i)
    (h1 : i < (l1.length : Int)) : bookOf (l1 ++ l2) i = bookOf l1 i := by
  unfold bookOf
  have hlt : i.toNat < l1.length := by omega
  rw [List.getElem?_append_left hlt]

/-- The counter and array of a store reached from the empty store. -/
theorem reachable_book (calls : List Call) (s : Store)
    (h : runCalls Store.empty calls = .ok s) :
    s.orderBook = bookOf calls ∧
      (s.orderCount = (calls.length : Int) ∨ s.orderCount = -2147483648) := by
  rcases reachable_cases calls s h with ⟨hs, _⟩ | ⟨hs, _⟩
  · subst hs; exact ⟨rfl, Or.inl rfl⟩
  · subst hs; exact ⟨rfl, Or.inr rfl⟩

/-- Claim C12.  Write-once.  A call of `addOrder` that is accepted (it claims
an index `i` with `0 ≤ i < MAX_ORDERS`) returns, puts its order at slot `i`
and leaves every other slot as it was.  In a sequence of calls from the empty
store, two different calls that are both accepted claim different indices, so
no slot is written twice; and an order written at a slot by some prefix of
the sequence is still there, unchanged, after all the later calls. -/
theorem addOrder_writes_once :
    (∀ (s : Store) (c : Call) (i : Int), (fetch_add s.orderCount 1).1 = i →
      0 ≤ i → i < MAX_ORDERS →
      ∃ s1, submit s c = .ok s1 ∧
        s1.orderBook i = Order.make i c.isBuy c.ticker c.quantity c.price ∧
        ∀ j, j ≠ i → s1.orderBook j = s.orderBook j) ∧
    (∀ (calls : List Call) (k1 k2 : Nat) (s1 s2 : Store), k1 < k2 →
      runCalls Store.empty (calls.take k1) = .ok s1 →
      runCalls Store.empty (calls.take k2) = .ok s2 → k2 < calls.length →
      (0 ≤ (fetch_add s1.orderCount 1).1 ∧ (fetch_add s1.orderCount 1).1 < MAX_ORDERS) →
      (0 ≤ (fetch_add s2.orderCount 1).1 ∧ (fetch_add s2.orderCount 1).1 < MAX_ORDERS) →
      (fetch_add s1.orderCount 1).1 ≠ (fetch_add s2.orderCount 1).1) ∧
    (∀ (l1 l2 : List Call) (s1 s2 : Store),
      runCalls Store.empty l1 = .ok s1 → runCalls Store.empty (l1 ++ l2) = .ok s2 →
      ∀ i, 0 ≤ i → i < s1.orderCount → i < MAX_ORDERS →
        s2.orderBook i = s1.orderBook i) := by
  refine ⟨?_, ?_, ?_⟩
  · intro s c i hi h0 h1
    have hidx : s.orderCount = i := hi
    subst hidx
    refine ⟨_, addOrder_accept s c.isBuy c.ticker c.quantity c.price h0 h1, ?_, ?_⟩
    · simp only [Function.update_same]
    · intro j hj
      simp only [Function.update_noteq hj]
  · intro calls k1 k2 s1 s2 hlt h1 h2 hk2 ha1 ha2
    have hl1 : (calls.take k1).length = k1 := by rw [List.length_take]; omega
    have hl2 : (calls.take k2).length = k2 := by rw [List.length_take]; omega
    obtain ⟨_, hc1⟩ := reachable_book _ _ h1
    obtain ⟨_, hc2⟩ := reachable_book _ _ h2
    simp only [fetch_add] at ha1 ha2 ⊢
    rw [hl1] at hc1
    rw [hl2] at hc2
    omega
  · intro l1 l2 s1 s2 h1 h2 i h0 hlt _
    obtain ⟨hb1, hc1⟩ := reachable_book _ _ h1
    obtain ⟨hb2, _⟩ := reachable_book _ _ h2
    rw [hb1, hb2]
    exact bookOf_append_of_lt l1 l2 i h0 (by omega)

/-- Claim C12 at the calls `mixedCalls`: the call made after the first three
claims index 3 and writes slot 3 only, and the orders of the first three
calls are still in their slots after all five. -/
theorem addOrder_writes_once_witness :
    (∃ s1, submit { orderCount := 3, orderBook := bookOf (mixedCalls.take 3) }
        ⟨true, 1, 3, Double.fin 60⟩ = .ok s1 ∧
      s1.orderBook 3 = Order.make 3 true 1 3 (Double.fin 60) ∧
      ∀ j, j ≠ 3 → s1.orderBook j = bookOf (mixedCalls.take 3) j) ∧
    (∀ i, 0 ≤ i → i < 3 → i < MAX_ORDERS →
      bookOf (mixedCalls.take 3 ++ mixedCalls.drop 3) i = bookOf (mixedCalls.take 3) i) :=
  ⟨addOrder_writes_once.1 { orderCount := 3, orderBook := bookOf (mixedCalls.take 3) }
      ⟨true, 1, 3, Double.fin 60⟩ 3 rfl (by decide) (by decide),
    addOrder_writes_once.2.2 (mixedCalls.take 3) (mixedCalls.drop 3)
      { orderCount := 3, orderBook := bookOf (mixedCalls.take 3) }
      { orderCount := 5, orderBook := bookOf (mixedCalls.take 3 ++ mixedCalls.drop 3) }
      (runCalls_empty_eq (mixedCalls.take 3) (by decide))
      (runCalls_empty_eq (mixedCalls.take 3 ++ mixedCalls.drop 3) (by decide))⟩

/-! ## The match pass leaves the store alone -/

theorem firstPassStep_ok (s : Store) (sc sc1 : Scratch) (i : Int)
    (h : firstPassBody s.orderBook sc i = .ok sc1) :
    firstPassStep (s, sc) i = .ok (s, sc1) := by
  simp only [firstPassStep, h]

theorem firstPassStep_error (s : Store) (sc : Scratch) (i : Int) (e : Fault)
    (h : firstPassBody s.orderBook sc i = .error e) :
    firstPassStep (s, sc) i = .error e := by
  simp only [firstPassStep, h]

theorem secondPassStep_ok (s : Store) (sc : Scratch) (ms ms1 : List Match) (i : Int)
    (h : secondPassBody s.orderBook sc ms i = .ok ms1) :
    secondPassStep sc (s, ms) i = .ok (s, ms1) := by
  simp only [secondPassStep, h]

theorem secondPassStep_error (s : Store) (sc : Scratch) (ms : List Match) (i : Int)
    (e : Fault) (h : secondPassBody s.orderBook sc ms i = .error e) :
    secondPassStep sc (s, ms) i = .error e := by
  simp only [secondPassStep, h]

theorem forLoop_firstPassStep_ok (s : Store) (n : Nat) (sc sc1 : Scratch)
    (h : forLoop (firstPassBody s.orderBook) n sc = .ok sc1) :
    forLoop firstPassStep n (s, sc) = .ok (s, sc1) := by
  induction n generalizing sc1 with
  | zero =>
    simp only [forLoop, Except.ok.injEq] at h
    subst h; rfl
  | succ n ih =>
    cases hn : forLoop (firstPassBody s.orderBook) n sc with
    | error e => simp [forLoop, hn] at h
    | ok sc2 =>
      rw [forLoop_succ _ _ _ _ hn] at h
      rw [forLoop_succ _ _ _ _ (ih sc2 hn)]
      exact firstPassStep_ok s sc2 sc1 n h

theorem forLoop_firstPassStep_error (s : Store) (n : Nat) (sc : Scratch) (e : Fault)
    (h : forLoop (firstPassBody s.orderBook) n sc = .error e) :
    forLoop firstPassStep n (s, sc) = .error e := by
  induction n with
  | zero => simp [forLoop] at h
  | succ n ih =>
    cases hn : forLoop (firstPassBody s.orderBook) n sc with
    | error e2 =>
      have he : e2 = e := by simpa [forLoop, hn] using h
      subst he
      simp only [forLoop, ih hn]
    | ok sc2 =>
      rw [forLoop_succ _ _ _ _ hn] at h
      rw [forLoop_succ _ _ _ _ (forLoop_firstPassStep_ok s n sc sc2 hn)]
      exact firstPassStep_error s sc2 n e h

theorem forLoop_secondPassStep_ok (s : Store) (sc : Scratch) (n : Nat) (ms ms1 : List Match)
    (h : forLoop (secondPassBody s.orderBook sc) n ms = .ok ms1) :
    forLoop (secondPassStep sc) n (s, ms) = .ok (s, ms1) := by
  induction n generalizing ms1 with
  | zero =>
    simp only [forLoop, Except.ok.injEq] at h
    subst h; rfl
  | succ n ih =>
    cases hn : forLoop (secondPassBody s.orderBook sc) n ms with
    | error e => simp [forLoop, hn] at h
    | ok ms2 =>
      rw [forLoop_succ _ _ _ _ hn] at h
      rw [forLoop_succ _ _ _ _ (ih ms2 hn)]
      exact secondPassStep_ok s sc ms2 ms1 n h

theorem forLoop_secondPassStep_error (s : Store) (sc : Scratch) (n : Nat) (ms : List Match)
    (e : Fault) (h : forLoop (secondPassBody s.orderBook sc) n ms = .error e) :
    forLoop (secondPassStep sc) n (s, ms) = .error e := by
  induction n with
  | zero => simp [forLoop] at h
  | succ n ih =>
    cases hn : forLoop (secondPassBody s.orderBook sc) n ms with
    | error e2 =>
      have he : e2 = e := by simpa [forLoop, hn] using h
      subst he
      simp only [forLoop, ih hn]
    | ok ms2 =>
      rw [forLoop_succ _ _ _ _ hn] at h
      rw [forLoop_succ _ _ _ _ (forLoop_secondPassStep_ok s sc n ms ms2 hn)]
      exact secondPassStep_error s sc ms2 n e h

/-- When `matchOrder` returns, its run on the globals returns the same vector
and leaves the store it was given. -/
theorem matchOrderRun_ok (s : Store) (ms : List Match) (h : matchOrder s = .ok ms) :
    matchOrderRun s = .ok (ms, s) := by
  unfold matchOrder firstPass at h
  cases h1 : forLoop (firstPassBody s.orderBook) s.orderCount.toNat Scratch.init with
  | error e => simp [h1] at h
  | ok sc =>
    simp only [h1] at h
    simp only [matchOrderRun, forLoop_firstPassStep_ok s _ _ _ h1,
      forLoop_secondPassStep_ok s sc _ _ _ h]

/-- When `matchOrder` faults, so does its run on the globals. -/
theorem matchOrderRun_error (s : Store) (e : Fault) (h : matchOrder s = .error e) :
    matchOrderRun s = .error e := by
  unfold matchOrder firstPass at h
  cases h1 : forLoop (firstPassBody s.orderBook) s.orderCount.toNat Scratch.init with
  | error e1 =>
    have he : e1 = e := by simpa [h1] using h
    subst he
    simp only [matchOrderRun, forLoop_firstPassStep_error s _ _ _ h1]
  | ok sc =>
    simp only [h1] at h
    simp only [matchOrderRun, forLoop_firstPassStep_ok s _ _ _ h1,
      forLoop_secondPassStep_error s sc _ _ _ h]

/-- Claim C13, amended.  After at most `MAX_ORDERS` calls of `addOrder` from
the empty store, all with a ticker in `[0, NUM_TICKERS)`, the run of
`matchOrder` returns; the store it leaves has the same counter and the same
slots as the store it was given; and every Match it returns holds copies of
stored orders, `m.buy` being the order at slot `m.buy.orderId` and `m.sell`
the order at slot `m.sell.orderId`, equal in all fields, the quantity
included. -/
theorem matchOrder_leaves_store_and_copies_orders (calls : List Call)
    (hlen : (calls.length : Int) ≤ MAX_ORDERS)
    (hticks : ∀ c ∈ calls, 0 ≤ c.ticker ∧ c.ticker < NUM_TICKERS) :
    ∃ s ms s1, runCalls Store.empty calls = .ok s ∧ matchOrderRun s = .ok (ms, s1) ∧
      s1.orderCount = s.orderCount ∧ s1.orderBook = s.orderBook ∧
      ∀ m ∈ ms, m.buy = s.orderBook m.buy.orderId ∧ m.sell = s.orderBook m.sell.orderId ∧
        m.buy.quantity = (s.orderBook m.buy.orderId).quantity ∧
        m.sell.quantity = (s.orderBook m.sell.orderId).quantity := by
  have hrun := runCalls_empty_eq calls (by unfold MAX_ORDERS at hlen; omega)
  obtain ⟨hcap, htick, _⟩ := matchOrder_returns_of_calls calls _ hrun hlen hticks
  obtain ⟨sc, hinv, heq⟩ := matchOrder_eq _ hcap htick
  refine ⟨_, _, _, hrun, matchOrderRun_ok _ _ heq, rfl, rfl, ?_⟩
  intro m hmem
  obtain ⟨i, h0, h1, hmi⟩ := (mem_matches_iff _ _ _ _).1 hmem
  obtain ⟨j, _, hmb, hmsell, hrec, _⟩ := match_anatomy _ sc hinv i m hmi
  have hbi : m.buy.orderId = i := by
    rw [hmb]; exact reachable_ids calls _ hrun i h0 h1 (by simp only at h1; omega)
  have hsj : m.sell.orderId = j := by
    rw [hmsell]
    exact reachable_ids calls _ hrun j hrec.1.1 hrec.1.2.1
      (by have := hrec.1.2.1; simp only at this; omega)
  have hb : m.buy = bookOf calls m.buy.orderId := by rw [hbi]; exact hmb
  have hs : m.sell = bookOf calls m.sell.orderId := by rw [hsj]; exact hmsell
  exact ⟨hb, hs, congrArg Order.quantity hb, congrArg Order.quantity hs⟩

/-- Claim C13 (amended) at the five calls `mixedCalls`. -/
theorem matchOrder_leaves_store_and_copies_orders_witness :
    (mixedCalls.length : Int) ≤ MAX_ORDERS ∧
    (∀ c ∈ mixedCalls, 0 ≤ c.ticker ∧ c.ticker < NUM_TICKERS) ∧
    matchOrderRun { orderCount := (mixedCalls.length : Int), orderBook := bookOf mixedCalls } =
      .ok ([{ buy := Order.make 3 true 1 3 (Double.fin 60),
              sell := Order.make 0 false 1 3 (Double.fin 50) },
            { buy := Order.make 4 true 1 3 (Double.fin 70),
              sell := Order.make 0 false 1 3 (Double.fin 50) }],
           { orderCount := (mixedCalls.length : Int), orderBook := bookOf mixedCalls }) ∧
    ∃ s ms s1, runCalls Store.empty mixedCalls = .ok s ∧ matchOrderRun s = .ok (ms, s1) ∧
      s1.orderCount = s.orderCount ∧ s1.orderBook = s.orderBook ∧
      ∀ m ∈ ms, m.buy = s.orderBook m.buy.orderId ∧ m.sell = s.orderBook m.sell.orderId ∧
        m.buy.quantity = (s.orderBook m.buy.orderId).quantity ∧
        m.sell.quantity = (s.orderBook m.sell.orderId).quantity :=
  ⟨by decide, by decide, rfl,
    matchOrder_leaves_store_and_copies_orders mixedCalls (by decide) (by decide)⟩

/-! ## The empty store -/

/-- Claim C14.  On the empty store (no call of `addOrder` made, counter `0`)
`matchOrder` returns the empty vector of Matches and leaves the store empty,
and the order count that `main` prints is zero. -/
theorem matchOrder_empty_store :
    runCalls Store.empty [] = .ok Store.empty ∧
    Store.empty.orderCount = 0 ∧
    matchOrder Store.empty = .ok [] ∧
    matchOrderRun Store.empty = .ok ([], Store.empty) :=
  ⟨rfl, rfl, rfl, rfl⟩

/-! ## The counter -/

/-- Claim C15 fails as stated: after `2^31 - 1` calls of `addOrder` from the
empty store the counter is `2147483647`, the greatest `int`; the next call is
rejected and leaves the counter at `-2147483648`, which is not the counter
before plus one and is smaller than the counter before. -/
theorem counter_wraps_at_int_max :
    runCalls Store.empty (List.replicate 2147483647 unitCall) =
      .ok { orderCount := 2147483647,
            orderBook := bookOf (List.replicate 2147483647 unitCall) } ∧
    submit { orderCount := 2147483647,
             orderBook := bookOf (List.replicate 2147483647 unitCall) } unitCall =
      .ok { orderCount := -2147483648,
            orderBook := bookOf (List.replicate 2147483647 unitCall) } ∧
    (-2147483648 : Int) ≠ 2147483647 + 1 ∧ (-2147483648 : Int) < 2147483647 := by
  refine ⟨?_, ?_, by decide, by decide⟩
  · have h := runCalls_empty_eq (List.replicate 2147483647 unitCall)
      (by rw [List.length_replicate]; decide)
    rw [List.length_replicate] at h
    exact h
  · exact addOrder_reject
      { orderCount := 2147483647, orderBook := bookOf (List.replicate 2147483647 unitCall) }
      unitCall.isBuy unitCall.ticker unitCall.quantity unitCall.price (by decide)

/-- Claim C15, amended.  In every store state whose counter is an `int` below
`2147483647`, `fetch_add` stores the counter plus one, so after every call of
`addOrder` that returns, accepted or rejected, the counter is the counter
before plus one, and the call does return when the counter is not negative;
hence over any sequence of at most `2^31 - 1` calls from the empty store the
counter after `k` calls is `k`, and it never decreases along the sequence. -/
theorem counter_increments_below_int_max :
    (∀ (s : Store) (c : Call), -2147483648 ≤ s.orderCount → s.orderCount < 2147483647 →
      (fetch_add s.orderCount 1).2 = s.orderCount + 1 ∧
      (∀ s1, submit s c = .ok s1 → s1.orderCount = s.orderCount + 1) ∧
      (0 ≤ s.orderCount → ∃ s1, submit s c = .ok s1)) ∧
    (∀ (calls : List Call) (k1 k2 : Nat), (calls.length : Int) ≤ 2147483647 →
      k1 ≤ k2 → k2 ≤ calls.length →
      ∃ s1 s2, runCalls Store.empty (calls.take k1) = .ok s1 ∧
        runCalls Store.empty (calls.take k2) = .ok s2 ∧
        s1.orderCount = (k1 : Int) ∧ s2.orderCount = (k2 : Int) ∧
        s1.orderCount ≤ s2.orderCount) := by
  constructor
  · intro s c hlo hhi
    have hw : wrapInt32 (s.orderCount + 1) = s.orderCount + 1 :=
      wrapInt32_of_inRange _ (by omega) (by omega)
    refine ⟨hw, ?_, fun h0 => submit_returns s c h0⟩
    intro s1 hsub
    unfold submit at hsub
    by_cases hneg : s.orderCount < 0
    · rw [addOrder_fault s _ _ _ _ hneg] at hsub
      cases hsub
    · by_cases hc : s.orderCount < MAX_ORDERS
      · rw [addOrder_accept s _ _ _ _ (not_lt.1 hneg) hc] at hsub
        cases hsub; rfl
      · rw [addOrder_reject s _ _ _ _ (not_lt.1 hc)] at hsub
        cases hsub; exact hw
  · intro calls k1 k2 hlen h12 h2
    have hl1 : (calls.take k1).length = k1 := by rw [List.length_take]; omega
    have hl2 : (calls.take k2).length = k2 := by rw [List.length_take]; omega
    refine ⟨_, _, runCalls_empty_eq (calls.take k1) (by omega),
      runCalls_empty_eq (calls.take k2) (by omega), ?_, ?_, ?_⟩
    · simp only [hl1]
    · simp only [hl2]
    · simp only [hl1, hl2]; omega

/-- Claim C15 (amended) at the store `tieStore` and at the calls `mixedCalls`. -/
theorem counter_increments_below_int_max_witness :
    ((fetch_add tieStore.orderCount 1).2 = tieStore.orderCount + 1 ∧
      (∀ s1, submit tieStore unitCall = .ok s1 → s1.orderCount = tieStore.orderCount + 1) ∧
      (0 ≤ tieStore.orderCount → ∃ s1, submit tieStore unitCall = .ok s1)) ∧
    ∃ s1 s2, runCalls Store.empty (mixedCalls.take 2) = .ok s1 ∧
      runCalls Store.empty (mixedCalls.take 5) = .ok s2 ∧
      s1.orderCount = ((2 : Nat) : Int) ∧ s2.orderCount = ((5 : Nat) : Int) ∧
      s1.orderCount ≤ s2.orderCount :=
  ⟨counter_increments_below_int_max.1 tieStore unitCall (by decide) (by decide),
    counter_increments_below_int_max.2 mixedCalls 2 5 (by decide) (by decide) (by decide)⟩

/-! ## The scratch arrays -/

/-- Claim C17.  On a store within capacity whose written orders all have
their ticker in range, both loops of `matchOrder` run without a subscript out
of bounds: the first loop ends with scratch arrays `sc`, `matchOrder`
returns, and every recorded `lowestSellIndex[t]` other than `-1` is a slot
index in `[0, orderCount)`, hence inside `orderBook`, holding a Sell order on
ticker `t`.  A subscript of a scratch array outside `[0, NUM_TICKERS)` would
make the loop end in `Fault.tickerIndex`. -/
theorem scratch_accesses_in_bounds (s : Store) (hcap : s.orderCount ≤ MAX_ORDERS)
    (htick : s.TickersInRange) :
    ∃ sc ms, firstPass s.orderBook s.orderCount.toNat = .ok sc ∧
      matchOrder s = .ok ms ∧
      (∀ e, firstPass s.orderBook s.orderCount.toNat ≠ .error e) ∧
      (∀ e, forLoop (secondPassBody s.orderBook sc) s.orderCount.toNat [] ≠ .error e) ∧
      ∀ t, 0 ≤ t → t < NUM_TICKERS → sc.lowestSellIndex t ≠ -1 →
        0 ≤ sc.lowestSellIndex t ∧ sc.lowestSellIndex t < s.orderCount ∧
        sc.lowestSellIndex t < MAX_ORDERS ∧
        (s.orderBook (sc.lowestSellIndex t)).buy_or_sell = false ∧
        (s.orderBook (sc.lowestSellIndex t)).ticker = t := by
  have hcapn : ((s.orderCount.toNat : Nat) : Int) ≤ MAX_ORDERS := by
    unfold MAX_ORDERS at *; omega
  have htickn : ∀ i : Int, 0 ≤ i → i < (s.orderCount.toNat : Nat) →
      0 ≤ (s.orderBook i).ticker ∧ (s.orderBook i).ticker < NUM_TICKERS :=
    fun i h0 h1 => htick i h0 (by omega)
  obtain ⟨sc, hsc, hinv⟩ := firstPass_inv s.orderBook s.orderCount.toNat hcapn htickn
  have hidx : ∀ t, sc.lowestSellIndex t = -1 ∨
      (0 ≤ sc.lowestSellIndex t ∧ sc.lowestSellIndex t < MAX_ORDERS) := by
    intro t
    rcases hinv.index_bound t with h | h
    · exact Or.inl h
    · exact Or.inr ⟨h.1, by omega⟩
  have h2 := secondPass_eq s.orderBook sc s.orderCount.toNat hcapn htickn hidx []
  have hm : matchOrder s = .ok ([] ++ (List.range s.orderCount.toNat).filterMap
      (fun k : Nat => matchAt s.orderBook sc (k : Int))) := by
    simp only [matchOrder, hsc, h2]
  refine ⟨sc, _, hsc, hm, ?_, ?_, ?_⟩
  · intro e he
    rw [hsc] at he
    cases he
  · intro e he
    rw [h2] at he
    cases he
  · intro t _ _ hne
    obtain ⟨⟨⟨h0, h1, hs, ht⟩, _⟩, _⟩ := recorded_of_index_ne s sc hinv t hne
    exact ⟨h0, h1, by omega, hs, ht⟩

/-- Claim C17 at the store `tieStore`, whose first loop records slot 1 for
ticker 5. -/
theorem scratch_accesses_in_bounds_witness :
    tieStore.orderCount ≤ MAX_ORDERS ∧ tieStore.TickersInRange ∧
    (∃ sc, firstPass tieStore.orderBook tieStore.orderCount.toNat = .ok sc ∧
      sc.lowestSellIndex 5 = 1) ∧
    ∃ sc ms, firstPass tieStore.orderBook tieStore.orderCount.toNat = .ok sc ∧
      matchOrder tieStore = .ok ms ∧
      (∀ e, firstPass tieStore.orderBook tieStore.orderCount.toNat ≠ .error e) ∧
      (∀ e, forLoop (secondPassBody tieStore.orderBook sc) tieStore.orderCount.toNat [] ≠
        .error e) ∧
      ∀ t, 0 ≤ t → t < NUM_TICKERS → sc.lowestSellIndex t ≠ -1 →
        0 ≤ sc.lowestSellIndex t ∧ sc.lowestSellIndex t < tieStore.orderCount ∧
        sc.lowestSellIndex t < MAX_ORDERS ∧
        (tieStore.orderBook (sc.lowestSellIndex t)).buy_or_sell = false ∧
        (tieStore.orderBook (sc.lowestSellIndex t)).ticker = t :=
  ⟨by decide, tieStore_tickers, ⟨_, rfl, rfl⟩,
    scratch_accesses_in_bounds tieStore (by decide) tieStore_tickers⟩

/-! ## The sentinel `1e9` -/

/-- Function `matchOrder` on a store within capacity whose written orders
have tickers in range, with the scratch arrays its first loop ends with. -/
theorem matchOrder_passes (s : Store) (hcap : s.orderCount ≤ MAX_ORDERS)
    (htick : s.TickersInRange) :
    ∃ sc, firstPass s.orderBook s.orderCount.toNat = .ok sc ∧
      FirstPassInv s.orderBook s.orderCount.toNat sc ∧
      matchOrder s = .ok ((List.range s.orderCount.toNat).filterMap
        (fun k : Nat => matchAt s.orderBook sc (k : Int))) := by
  have hcapn : ((s.orderCount.toNat : Nat) : Int) ≤ MAX_ORDERS := by
    unfold MAX_ORDERS at *; omega
  have htickn : ∀ i : Int, 0 ≤ i → i < (s.orderCount.toNat : Nat) →
      0 ≤ (s.orderBook i).ticker ∧ (s.orderBook i).ticker < NUM_TICKERS :=
    fun i h0 h1 => htick i h0 (by omega)
  obtain ⟨sc, hsc, hinv⟩ := firstPass_inv s.orderBook s.orderCount.toNat hcapn htickn
  have hidx : ∀ t, sc.lowestSellIndex t = -1 ∨
      (0 ≤ sc.lowestSellIndex t ∧ sc.lowestSellIndex t < MAX_ORDERS) := by
    intro t
    rcases hinv.index_bound t with h | h
    · exact Or.inl h
    · exact Or.inr ⟨h.1, by omega⟩
  have h2 := secondPass_eq s.orderBook sc s.orderCount.toNat hcapn htickn hidx []
  exact ⟨sc, hsc, hinv, by simp only [matchOrder, hsc, h2, List.nil_append]⟩

/-- Claim C19.  On a valid store `matchOrder` returns, every Match it returns
has a sell price strictly below `1e9`, and a Sell order priced at or above
`1e9` is neither recorded by the first loop as the lowest sell of its ticker
nor the sell of any returned Match, whatever else the store holds. -/
theorem sell_at_or_above_sentinel_is_never_matched (s : Store) (hv : s.Valid) :
    ∃ sc ms, firstPass s.orderBook s.orderCount.toNat = .ok sc ∧
      matchOrder s = .ok ms ∧
      (∀ m ∈ ms, Double.lt m.sell.price Double.sentinel = true) ∧
      ∀ t j, s.SellOn t j → Double.ge (s.orderBook j).price Double.sentinel = true →
        sc.lowestSellIndex t ≠ j ∧ ∀ m ∈ ms, m.sell ≠ s.orderBook j := by
  obtain ⟨hcap, htick, _⟩ := hv
  obtain ⟨sc, hsc, hinv, heq⟩ := matchOrder_passes s hcap htick
  have hsells : ∀ m ∈ (List.range s.orderCount.toNat).filterMap
      (fun k : Nat => matchAt s.orderBook sc (k : Int)),
      Double.lt m.sell.price Double.sentinel = true := by
    intro m hm
    obtain ⟨i, _, _, hmi⟩ := (mem_matches_iff _ _ _ _).1 hm
    obtain ⟨j, _, _, hms, hrec, _⟩ := match_anatomy s sc hinv i m hmi
    rw [hms]; exact hrec.2.1
  refine ⟨sc, _, hsc, heq, hsells, ?_⟩
  intro t j hsell hge
  have hnlt : Double.lt (s.orderBook j).price Double.sentinel = false :=
    ((Double.ge_iff _ _).1 hge).2.2
  constructor
  · intro hidx
    have hne : sc.lowestSellIndex t ≠ -1 := by have := hsell.1; omega
    obtain ⟨hrec, _⟩ := recorded_of_index_ne s sc hinv t hne
    have := hrec.2.1
    rw [hidx, hnlt] at this
    exact absurd this (by simp)
  · intro m hm hmj
    have := hsells m hm
    rw [hmj, hnlt] at this
    exact absurd this (by simp)

/-- Claim C19 at the store `dearStore`: its only Sell order on ticker 0 is
priced `2e9`, the Buy order on ticker 0 bids `2e9`, and no Match is returned. -/
theorem sell_at_or_above_sentinel_is_never_matched_witness :
    dearStore.Valid ∧ dearStore.SellOn 0 0 ∧
    Double.ge (dearStore.orderBook 0).price Double.sentinel = true ∧
    (dearStore.orderBook 1).buy_or_sell = true ∧ (dearStore.orderBook 1).ticker = 0 ∧
    Double.ge (dearStore.orderBook 1).price (dearStore.orderBook 0).price = true ∧
    matchOrder dearStore = .ok [] ∧
    ∃ sc ms, firstPass dearStore.orderBook dearStore.orderCount.toNat = .ok sc ∧
      matchOrder dearStore = .ok ms ∧
      (∀ m ∈ ms, Double.lt m.sell.price Double.sentinel = true) ∧
      ∀ t j, dearStore.SellOn t j →
        Double.ge (dearStore.orderBook j).price Double.sentinel = true →
        sc.lowestSellIndex t ≠ j ∧ ∀ m ∈ ms, m.sell ≠ dearStore.orderBook j :=
  ⟨⟨by decide, fun i h0 h1 => (dearStore_preconditions i h0 h1).1, dearStore_ids⟩,
    by decide, by decide, by decide, by decide, by decide, rfl,
    sell_at_or_above_sentinel_is_never_matched dearStore
      ⟨by decide, fun i h0 h1 => (dearStore_preconditions i h0 h1).1, dearStore_ids⟩⟩

/-! ## Independence of the tickers -/

theorem Store.AgreeOnTicker.symm {t : Int} {s1 s2 : Store} (h : Store.AgreeOnTicker t s1 s2) :
    Store.AgreeOnTicker t s2 s1 :=
  ⟨h.1.symm, fun i h0 h1 ht => (h.2 i h0 (by rw [h.1]; exact h1) ht.symm).symm⟩

/-- A Sell order on `t` of one store is a Sell order on `t` of a store that
agrees with it on `t`, at the same slot and with the same content. -/
theorem Store.AgreeOnTicker.sellOn {t : Int} {s1 s2 : Store}
    (h : Store.AgreeOnTicker t s1 s2) {k : Int} (hk : s1.SellOn t k) :
    s2.SellOn t k ∧ s1.orderBook k = s2.orderBook k := by
  obtain ⟨h0, h1, hs, ht⟩ := hk
  have heq := h.2 k h0 h1 (Or.inl ht)
  exact ⟨⟨h0, by rw [← h.1]; exact h1, by rw [← heq]; exact hs, by rw [← heq]; exact ht⟩, heq⟩

/-- The recorded lowest sell of `t` is the same in two stores that agree on `t`. -/
theorem Store.AgreeOnTicker.recorded {t : Int} {s1 s2 : Store}
    (h : Store.AgreeOnTicker t s1 s2) {j : Int} (hrec : s1.RecordedSell t j) :
    s2.RecordedSell t j := by
  obtain ⟨hsell, hlt, hmin, hfirst⟩ := hrec
  obtain ⟨hsell2, hj⟩ := h.sellOn hsell
  refine ⟨hsell2, by rw [← hj]; exact hlt, ?_, ?_⟩
  · intro k hk
    obtain ⟨hk1, hkeq⟩ := h.symm.sellOn hk
    rw [← hj, hkeq]
    exact hmin k hk1
  · intro k hk hlt2
    obtain ⟨hk1, hkeq⟩ := h.symm.sellOn hk
    rw [← hj, hkeq]
    exact hfirst k hk1 hlt2

/-- After the first loop the scratch entries of `t` are the same for two
stores that agree on `t`, and so is the order at the recorded slot. -/
theorem scratch_agree (t : Int) (s1 s2 : Store) (sc1 sc2 : Scratch)
    (h : Store.AgreeOnTicker t s1 s2)
    (hinv1 : FirstPassInv s1.orderBook s1.orderCount.toNat sc1)
    (hinv2 : FirstPassInv s2.orderBook s2.orderCount.toNat sc2) :
    sc1.lowestSellIndex t = sc2.lowestSellIndex t ∧
      sc1.lowestSellPrice t = sc2.lowestSellPrice t ∧
      (sc1.lowestSellIndex t ≠ -1 →
        s1.orderBook (sc1.lowestSellIndex t) = s2.orderBook (sc2.lowestSellIndex t)) := by
  have key : ∀ (a b : Store) (sa sb : Scratch), Store.AgreeOnTicker t a b →
      FirstPassInv a.orderBook a.orderCount.toNat sa →
      FirstPassInv b.orderBook b.orderCount.toNat sb →
      sa.lowestSellIndex t ≠ -1 →
      sb.lowestSellIndex t = sa.lowestSellIndex t ∧
        sb.lowestSellPrice t = sa.lowestSellPrice t ∧
        a.orderBook (sa.lowestSellIndex t) = b.orderBook (sa.lowestSellIndex t) := by
    intro a b sa sb hab ha hb hne
    obtain ⟨hrec, hp⟩ := recorded_of_index_ne a sa ha t hne
    have hrecb := hab.recorded hrec
    have hneb : sb.lowestSellIndex t ≠ -1 := by
      intro heq
      have := no_cheap_sell_of_index_eq b sb hb t heq _ hrecb.1
      rw [hrecb.2.1] at this
      exact absurd this (by simp)
    obtain ⟨hrecb2, hpb⟩ := recorded_of_index_ne b sb hb t hneb
    have hidx := hrecb2.unique hrecb
    have hbook := (hab.sellOn hrec.1).2
    refine ⟨hidx, ?_, hbook⟩
    rw [← hpb, hidx, ← hp, hbook]
  by_cases h1 : sc1.lowestSellIndex t = -1
  · by_cases h2 : sc2.lowestSellIndex t = -1
    · have hp1 : sc1.lowestSellPrice t = Double.sentinel := by
        rcases hinv1 t with ⟨_, hp, _⟩ | ⟨h0, _⟩
        · exact hp
        · omega
      have hp2 : sc2.lowestSellPrice t = Double.sentinel := by
        rcases hinv2 t with ⟨_, hp, _⟩ | ⟨h0, _⟩
        · exact hp
        · omega
      exact ⟨by rw [h1, h2], by rw [hp1, hp2], fun hne => absurd h1 hne⟩
    · obtain ⟨hidx, _, _⟩ := key s2 s1 sc2 sc1 h.symm hinv2 hinv1 h2
      exact absurd (hidx.symm ▸ h1 : sc2.lowestSellIndex t = -1) h2
  · obtain ⟨hidx, hp, hbook⟩ := key s1 s2 sc1 sc2 h hinv1 hinv2 h1
    exact ⟨hidx.symm, hp.symm, fun _ => by rw [hidx]; exact hbook⟩

/-- A round on an order of another ticker contributes no Match whose buy is
on `t`. -/
theorem matchAt_filter_other (t : Int) (book : Int → Order) (sc : Scratch) (i : Int)
    (h : (book i).ticker ≠ t) :
    (matchAt book sc i).filter (fun m => decide (m.buy.ticker = t)) = none := by
  cases hm : matchAt book sc i with
  | none => rfl
  | some m =>
    have hmb := (matchAt_eq_some hm).2.2.2.1
    have : ¬ m.buy.ticker = t := by rw [hmb]; exact h
    simp [Option.filter, this]

/-- A round on a slot where two stores that agree on `t` hold an order on `t`
pushes the same Match in both. -/
theorem matchAt_agree (t : Int) (s1 s2 : Store) (sc1 sc2 : Scratch)
    (h : Store.AgreeOnTicker t s1 s2)
    (hinv1 : FirstPassInv s1.orderBook s1.orderCount.toNat sc1)
    (hinv2 : FirstPassInv s2.orderBook s2.orderCount.toNat sc2)
    (i : Int) (heq : s1.orderBook i = s2.orderBook i) (ht : (s1.orderBook i).ticker = t) :
    matchAt s1.orderBook sc1 i = matchAt s2.orderBook sc2 i := by
  obtain ⟨hidx, hprice, hbook⟩ := scratch_agree t s1 s2 sc1 sc2 h hinv1 hinv2
  unfold matchAt
  rw [← heq, ht, hidx, hprice]
  by_cases hc : (s1.orderBook i).buy_or_sell = true ∧ sc2.lowestSellIndex t ≠ -1 ∧
      Double.ge (s1.orderBook i).price (sc2.lowestSellPrice t) = true
  · rw [if_pos hc, if_pos hc, ← hidx, hbook (by rw [hidx]; exact hc.2.1), hidx]
  · rw [if_neg hc, if_neg hc]

theorem mixedStoreOther_valid : mixedStoreOther.Valid := by
  refine ⟨by decide, ?_, ?_⟩ <;>
  · intro i h0 h1
    have h5 : i < 5 := h1
    have : i = 0 ∨ i = 1 ∨ i = 2 ∨ i = 3 ∨ i = 4 := by omega
    rcases this with h | h | h | h | h <;> subst h <;> decide

theorem mixedStores_agree : Store.AgreeOnTicker 1 mixedStore mixedStoreOther := by
  refine ⟨rfl, ?_⟩
  intro i h0 h1 ht
  have h5 : i < 5 := h1
  have : i = 0 ∨ i = 1 ∨ i = 2 ∨ i = 3 ∨ i = 4 := by omega
  rcases this with h | h | h | h | h <;> subst h <;>
    first | decide | exact absurd ht (by decide)

/-- Claim C20.  Per-ticker independence.  For every ticker `t` and every two
valid stores with the same counter that hold the same order at every written
slot where either of them has an order on ticker `t`, `matchOrder` returns on
both, and the Matches whose buy is on ticker `t`, taken in order, are the
same in the two outputs. -/
theorem matches_of_ticker_depend_on_its_orders_only (t : Int) (s1 s2 : Store)
    (hv1 : s1.Valid) (hv2 : s2.Valid) (h : Store.AgreeOnTicker t s1 s2) :
    ∃ ms1 ms2, matchOrder s1 = .ok ms1 ∧ matchOrder s2 = .ok ms2 ∧
      ms1.filter (fun m => decide (m.buy.ticker = t)) =
        ms2.filter (fun m => decide (m.buy.ticker = t)) := by
  obtain ⟨sc1, hinv1, heq1⟩ := matchOrder_eq s1 hv1.1 hv1.2.1
  obtain ⟨sc2, hinv2, heq2⟩ := matchOrder_eq s2 hv2.1 hv2.2.1
  refine ⟨_, _, heq1, heq2, ?_⟩
  rw [List.filter_filterMap, List.filter_filterMap, ← h.1]
  apply List.filterMap_congr
  intro k hk
  rw [List.mem_range] at hk
  have h0 : (0 : Int) ≤ (k : Int) := Int.natCast_nonneg k
  have h1 : (k : Int) < s1.orderCount := by omega
  by_cases ht : (s1.orderBook k).ticker = t ∨ (s2.orderBook k).ticker = t
  · have hbook := h.2 k h0 h1 ht
    have ht1 : (s1.orderBook k).ticker = t := by
      rcases ht with ht | ht
      · exact ht
      · rw [hbook]; exact ht
    rw [matchAt_agree t s1 s2 sc1 sc2 h hinv1 hinv2 k hbook ht1]
  · rw [matchAt_filter_other t _ _ _ (fun hc => ht (Or.inl hc)),
      matchAt_filter_other t _ _ _ (fun hc => ht (Or.inr hc))]

/-- Claim C20 at ticker 1 and the stores `mixedStore` and `mixedStoreOther`,
which differ at slot 2 and whose outputs are both the Matches of slots 3 and 4
with slot 0. -/
theorem matches_of_ticker_depend_on_its_orders_only_witness :
    mixedStore.Valid ∧ mixedStoreOther.Valid ∧ Store.AgreeOnTicker 1 mixedStore mixedStoreOther ∧
    mixedStore.orderBook 2 ≠ mixedStoreOther.orderBook 2 ∧
    matchOrder mixedStoreOther =
      .ok [{ buy := mixedStoreOther.orderBook 3, sell := mixedStoreOther.orderBook 0 },
           { buy := mixedStoreOther.orderBook 4, sell := mixedStoreOther.orderBook 0 }] ∧
    ∃ ms1 ms2, matchOrder mixedStore = .ok ms1 ∧ matchOrder mixedStoreOther = .ok ms2 ∧
      ms1.filter (fun m => decide (m.buy.ticker = 1)) =
        ms2.filter (fun m => decide (m.buy.ticker = 1)) :=
  ⟨mixedStore_valid, mixedStoreOther_valid, mixedStores_agree, by decide, rfl,
    matches_of_ticker_depend_on_its_orders_only 1 mixedStore mixedStoreOther mixedStore_valid
      mixedStoreOther_valid mixedStores_agree⟩

/-! ## The match pass against its reference definition -/

theorem refIsSell_iff (s : Store) (t : Int) (k : Nat) (hk : k < s.orderCount.toNat) :
    refIsSell s t k = true ↔ s.SellOn t (k : Int) := by
  have h0 : (0 : Int) ≤ (k : Int) := Int.natCast_nonneg k
  have h1 : (k : Int) < s.orderCount := by omega
  simp [refIsSell, Store.SellOn, h0, h1]

theorem refHasSell_of_sellOn (s : Store) (t j : Int) (h : s.SellOn t j) :
    refHasSell s t = true := by
  have hj : ((j.toNat : Nat) : Int) = j := Int.toNat_of_nonneg h.1
  have hk : j.toNat < s.orderCount.toNat := by have := h.2.1; omega
  unfold refHasSell
  rw [List.any_eq_true]
  exact ⟨j.toNat, List.mem_range.2 hk, (refIsSell_iff s t _ hk).2 (by rw [hj]; exact h)⟩

theorem refHasSell_false (s : Store) (t : Int) (h : ∀ j, ¬ s.SellOn t j) :
    refHasSell s t = false := by
  cases hc : refHasSell s t with
  | false => rfl
  | true =>
    unfold refHasSell at hc
    rw [List.any_eq_true] at hc
    obtain ⟨k, hk, hsell⟩ := hc
    exact absurd ((refIsSell_iff s t k (List.mem_range.1 hk)).1 hsell) (h _)

/-- Between slots inside the scan, `refIsMinSell` says that the slot holds a
Sell order on `t` and no Sell order on `t` is strictly cheaper. -/
theorem refIsMinSell_iff (s : Store) (t : Int) (j : Nat) (hj : j < s.orderCount.toNat) :
    refIsMinSell s t j = true ↔ s.LowestSellOn t (j : Int) := by
  unfold refIsMinSell Store.LowestSellOn
  rw [Bool.and_eq_true, refIsSell_iff s t j hj, List.all_eq_true]
  constructor
  · rintro ⟨hs, hall⟩
    refine ⟨hs, ?_⟩
    intro k hk
    have hkn : ((k.toNat : Nat) : Int) = k := Int.toNat_of_nonneg hk.1
    have hlt : k.toNat < s.orderCount.toNat := by have := hk.2.1; omega
    have := hall k.toNat (List.mem_range.2 hlt)
    rw [hkn] at this
    have hsell : refIsSell s t k.toNat = true :=
      (refIsSell_iff s t _ hlt).2 (by rw [hkn]; exact hk)
    simpa [hsell] using this
  · rintro ⟨hs, hmin⟩
    refine ⟨hs, ?_⟩
    intro k hk
    rw [List.mem_range] at hk
    cases hsell : refIsSell s t k with
    | false => rfl
    | true =>
      have := hmin (k : Int) ((refIsSell_iff s t k hk).1 hsell)
      simp [this]

/-- When every Sell order on `t` is priced below `1e9`, the reference `s(t)`
is the slot the first loop records. -/
theorem referenceLowestSell_of_recorded (s : Store) (t j : Int) (hrec : s.RecordedSell t j)
    (hbelow : ∀ k, s.SellOn t k → Double.lt (s.orderBook k).price Double.sentinel = true) :
    referenceLowestSell s t = some j.toNat := by
  have hj : ((j.toNat : Nat) : Int) = j := Int.toNat_of_nonneg hrec.1.1
  have hjn : j.toNat < s.orderCount.toNat := by have := hrec.1.2.1; omega
  unfold referenceLowestSell
  rw [List.find?_range_eq_some]
  refine ⟨?_, List.mem_range.2 hjn, ?_⟩
  · rw [refIsMinSell_iff s t _ hjn, hj]
    exact ⟨hrec.1, hrec.2.2.1⟩
  · intro k hk
    cases hmin : refIsMinSell s t k with
    | false => rfl
    | true =>
      exfalso
      have hkn : k < s.orderCount.toNat := by omega
      obtain ⟨hsell, hlow⟩ := (refIsMinSell_iff s t k hkn).1 hmin
      have h1 := hlow j hrec.1
      have h2 := hrec.2.2.1 _ hsell
      have hp := Double.eq_of_not_lt (Double.lt_ne_nan (hbelow _ hsell)).1
        (Double.lt_ne_nan hrec.2.1).1 h2 h1
      exact hrec.2.2.2 _ hsell (by omega) hp

/-- Claim C18.  On a valid store in which every Sell order is priced strictly
below `1e9`, `matchOrder` returns exactly the reference list: over the slots
`0 .. orderCount-1` in increasing order, the pair of the order at slot `i`
with the order at slot `s(t)`, for the slots `i` holding a Buy order on a
ticker `t` that has a Sell order and whose price is at least the price at
`s(t)`, the lowest slot among the Sell orders on `t` of minimum price. -/
theorem matchOrder_eq_reference (s : Store) (hv : s.Valid)
    (hbelow : ∀ t k, s.SellOn t k →
      Double.lt (s.orderBook k).price Double.sentinel = true) :
    matchOrder s = .ok (referenceMatches s) := by
  obtain ⟨sc, hinv, heq⟩ := matchOrder_eq s hv.1 hv.2.1
  rw [heq]
  unfold referenceMatches
  congr 1
  apply List.filterMap_congr
  intro i _
  unfold referenceMatchAt
  by_cases hb : (s.orderBook (i : Int)).buy_or_sell = true
  · by_cases hne : sc.lowestSellIndex (s.orderBook (i : Int)).ticker = -1
    · have hnone : refHasSell s (s.orderBook (i : Int)).ticker = false := by
        apply refHasSell_false
        intro j hj
        have := no_cheap_sell_of_index_eq s sc hinv _ hne j hj
        rw [hbelow _ j hj] at this
        exact absurd this (by simp)
      simp [matchAt, hne, hnone]
    · obtain ⟨hrec, hp⟩ := recorded_of_index_ne s sc hinv _ hne
      have hj : ((sc.lowestSellIndex (s.orderBook (i : Int)).ticker).toNat : Int) =
          sc.lowestSellIndex (s.orderBook (i : Int)).ticker := Int.toNat_of_nonneg hrec.1.1
      have hhas := refHasSell_of_sellOn s _ _ hrec.1
      have href := referenceLowestSell_of_recorded s _ _ hrec (hbelow _)
      simp only [matchAt, hb, hne, hhas, href, hj, ← hp, ne_eq, not_false_eq_true, true_and,
        and_self, if_true]
  · simp [matchAt, hb]

/-- Claim C18 at the store `tieStore`, on which the reference list is the
single pair of slot 3 with slot 1. -/
theorem matchOrder_eq_reference_witness :
    tieStore.Valid ∧
    (∀ t k, tieStore.SellOn t k →
      Double.lt (tieStore.orderBook k).price Double.sentinel = true) ∧
    referenceMatches tieStore =
      [{ buy := tieStore.orderBook 3, sell := tieStore.orderBook 1 }] ∧
    matchOrder tieStore = .ok (referenceMatches tieStore) := by
  have hbelow : ∀ t k, tieStore.SellOn t k →
      Double.lt (tieStore.orderBook k).price Double.sentinel = true := by
    rintro t k ⟨h0, h1, _, _⟩
    have h4 : k < 4 := h1
    have : k = 0 ∨ k = 1 ∨ k = 2 ∨ k = 3 := by omega
    rcases this with h | h | h | h <;> subst h <;> decide
  exact ⟨tieStore_valid, hbelow, by decide, matchOrder_eq_reference tieStore tieStore_valid hbelow⟩

/-! ## The match pass outside its domain -/

/-- Claim C5 fails as stated.  The store built from the empty store by
`MAX_ORDERS + 1` calls within the submit preconditions makes `matchOrder` read
`orderBook[10000]`, outside the array, and the store built by one call with
ticker 5000 makes it read `lowestSellIndex[5000]`, outside the scratch array:
on neither does `matchOrder` return a sequence that the store determines. -/
theorem matchOrder_returns_no_sequence_outside_domain :
    (∃ s, runCalls Store.empty (List.replicate 10001 unitCall) = .ok s ∧
      matchOrder s = .error (Fault.orderBookIndex 10000) ∧
      ∀ ms, matchOrder s ≠ .ok ms) ∧
    (∃ s, runCalls Store.empty [strayCall] = .ok s ∧
      matchOrder s = .error (Fault.tickerIndex 5000) ∧
      ∀ ms, matchOrder s ≠ .ok ms) := by
  have h1 : matchOrder
      { orderCount := ((List.replicate 10001 unitCall).length : Int),
        orderBook := bookOf (List.replicate 10001 unitCall) } =
      .error (Fault.orderBookIndex 10000) := by
    apply matchOrder_fault_beyond_capacity
    · simp only [List.length_replicate]; decide
    · intro i h0 h1
      dsimp only
      exact unitCalls_tickers 10001 i h0 h1
  have h2 : matchOrder
      { orderCount := (([strayCall] : List Call).length : Int),
        orderBook := bookOf [strayCall] } = .error (Fault.tickerIndex 5000) := rfl
  refine ⟨⟨_, runCalls_empty_eq _ ?_, h1, ?_⟩, ⟨_, runCalls_empty_eq _ (by decide), h2, ?_⟩⟩
  · rw [List.length_replicate]; decide
  · intro ms hms
    rw [h1] at hms
    cases hms
  · intro ms hms
    rw [h2] at hms
    cases hms

/-- Claim C13 fails as stated.  On the store built by `MAX_ORDERS + 1` calls
within the submit preconditions the run of `matchOrder` reads
`orderBook[10000]`, which is no slot of the store, and on the store built by
one call with ticker 5000 it reads `lowestSellIndex[5000]`, outside the
scratch array: on neither does the run return Matches made of stored orders. -/
theorem matchOrderRun_reads_outside_the_store :
    (∃ s, runCalls Store.empty (List.replicate 10001 unitCall) = .ok s ∧
      matchOrderRun s = .error (Fault.orderBookIndex 10000) ∧
      ∀ ms s1, matchOrderRun s ≠ .ok (ms, s1)) ∧
    (∃ s, runCalls Store.empty [strayCall] = .ok s ∧
      matchOrderRun s = .error (Fault.tickerIndex 5000) ∧
      ∀ ms s1, matchOrderRun s ≠ .ok (ms, s1)) := by
  have h1 : matchOrderRun
      { orderCount := ((List.replicate 10001 unitCall).length : Int),
        orderBook := bookOf (List.replicate 10001 unitCall) } =
      .error (Fault.orderBookIndex 10000) := by
    apply matchOrderRun_error
    apply matchOrder_fault_beyond_capacity
    · simp only [List.length_replicate]; decide
    · intro i h0 h1
      dsimp only
      exact unitCalls_tickers 10001 i h0 h1
  have h2 : matchOrderRun
      { orderCount := (([strayCall] : List Call).length : Int),
        orderBook := bookOf [strayCall] } = .error (Fault.tickerIndex 5000) := rfl
  refine ⟨⟨_, runCalls_empty_eq _ ?_, h1, ?_⟩, ⟨_, runCalls_empty_eq _ (by decide), h2, ?_⟩⟩
  · rw [List.length_replicate]; decide
  · intro ms s1 hms
    rw [h1] at hms
    cases hms
  · intro ms s1 hms
    rw [h2] at hms
    cases hms

/-! ## Interleavings of concurrent calls -/

theorem Shared.init_inv : Shared.init.Inv := by
  refine ⟨rfl, rfl, ?_, ?_, ?_⟩
  · intro p hp; cases hp
  · intro w hw; cases hw
  · exact List.nodup_nil

theorem stepEvent_claim_full (st : Shared) (c : Call)
    (h : st.store.orderCount ≥ MAX_ORDERS) :
    stepEvent st (Event.claim c) =
      .ok { store := { orderCount := wrapInt32 (st.store.orderCount + 1),
                       orderBook := st.store.orderBook },
            claimed := st.claimed ++ [st.store.orderCount],
            pending := st.pending,
            written := st.written } := by
  simp only [stepEvent, fetch_add, h, if_true]

theorem stepEvent_claim_free (st : Shared) (c : Call)
    (h : ¬ st.store.orderCount ≥ MAX_ORDERS) :
    stepEvent st (Event.claim c) =
      .ok { store := { orderCount := wrapInt32 (st.store.orderCount + 1),
                       orderBook := st.store.orderBook },
            claimed := st.claimed ++ [st.store.orderCount],
            pending := st.pending ++
              [{ call := st.claimed.length, index := st.store.orderCount, args := c }],
            written := st.written } := by
  simp only [stepEvent, fetch_add, h, if_false]

theorem stepEvent_write_none (st : Shared) (k : Nat)
    (h : st.pending.find? (fun p => decide (p.call = k)) = none) :
    stepEvent st (Event.write k) = .ok st := by
  simp only [stepEvent, h]

theorem stepEvent_write_some (st : Shared) (k : Nat) (p : PendingCall)
    (h : st.pending.find? (fun p => decide (p.call = k)) = some p)
    (hin : 0 ≤ p.index ∧ p.index < MAX_ORDERS) :
    stepEvent st (Event.write k) =
      .ok { store :=
              { orderCount := st.store.orderCount,
                orderBook := Function.update st.store.orderBook p.index
                  (Order.make p.index p.args.isBuy p.args.ticker p.args.quantity
                    p.args.price) },
            claimed := st.claimed,
            pending := st.pending.filter (fun q => !decide (q.call = k)),
            written := st.written ++ [(k, p.index)] } := by
  simp only [stepEvent, h, hin, and_self, if_true]

theorem stepEvent_write_fault (st : Shared) (k : Nat) (p : PendingCall)
    (h : st.pending.find? (fun p => decide (p.call = k)) = some p)
    (hout : ¬ (0 ≤ p.index ∧ p.index < MAX_ORDERS)) :
    stepEvent st (Event.write k) = .error (Fault.orderBookIndex p.index) := by
  simp only [stepEvent, h, hout, if_false]

/-- A claim step made while fewer than `2^31 - 1` calls have claimed returns
and keeps the invariant. -/
theorem stepEvent_claim_inv (st : Shared) (c : Call) (hinv : st.Inv)
    (hlt : (st.claimed.length : Int) < 2147483647) :
    ∃ st1, stepEvent st (Event.claim c) = .ok st1 ∧ st1.Inv ∧
      st1.claimed.length = st.claimed.length + 1 := by
  obtain ⟨hcount, hclaimed, hpend, hwritten, hnodup⟩ := hinv
  have hn0 : (0 : Int) ≤ (st.claimed.length : Int) := Int.natCast_nonneg _
  have hw : wrapInt32 (st.store.orderCount + 1) = (st.claimed.length : Int) + 1 := by
    rw [hcount]; exact wrapInt32_of_inRange _ (by omega) (by omega)
  have hcl : st.claimed ++ [st.store.orderCount] =
      (List.range (st.claimed.length + 1)).map (fun k : Nat => (k : Int)) := by
    rw [List.range_succ, List.map_append, ← hclaimed, hcount]
    rfl
  have hwr : ∀ w ∈ st.written, w.2 = (w.1 : Int) ∧ w.1 < st.claimed.length + 1 ∧
      ∀ p ∈ st.pending, p.call ≠ w.1 := fun w hmem =>
    ⟨(hwritten w hmem).1, by have := (hwritten w hmem).2.1; omega, (hwritten w hmem).2.2⟩
  by_cases hc : st.store.orderCount ≥ MAX_ORDERS
  · refine ⟨_, stepEvent_claim_full st c hc, ?_, by simp⟩
    refine ⟨?_, ?_, ?_, ?_, hnodup⟩
    · simp only [List.length_append, List.length_singleton, hw]; push_cast; rfl
    · simp only [List.length_append, List.length_singleton]; exact hcl
    · intro p hp
      simp only [List.length_append, List.length_singleton]
      exact ⟨by have := (hpend p hp).1; omega, (hpend p hp).2⟩
    · intro w hmem
      simp only [List.length_append, List.length_singleton]
      exact hwr w hmem
  · refine ⟨_, stepEvent_claim_free st c hc, ?_, by simp⟩
    have hcap : st.store.orderCount < MAX_ORDERS := not_le.1 hc
    refine ⟨?_, ?_, ?_, ?_, hnodup⟩
    · simp only [List.length_append, List.length_singleton, hw]; push_cast; rfl
    · simp only [List.length_append, List.length_singleton]; exact hcl
    · intro p hp
      simp only [List.length_append, List.length_singleton]
      rcases List.mem_append.1 hp with hold | hnew
      · exact ⟨by have := (hpend p hold).1; omega, (hpend p hold).2⟩
      · rw [List.mem_singleton] at hnew
        subst hnew
        exact ⟨by simp, hcount, hcap⟩
    · intro w hmem
      simp only [List.length_append, List.length_singleton]
      refine ⟨(hwr w hmem).1, (hwr w hmem).2.1, ?_⟩
      intro p hp
      rcases List.mem_append.1 hp with hold | hnew
      · exact (hwritten w hmem).2.2 p hold
      · rw [List.mem_singleton] at hnew
        subst hnew
        have := (hwritten w hmem).2.1
        simp only
        omega

/-- A write step returns and keeps the invariant. -/
theorem stepEvent_write_inv (st : Shared) (k : Nat) (hinv : st.Inv) :
    ∃ st1, stepEvent st (Event.write k) = .ok st1 ∧ st1.Inv ∧
      st1.claimed.length = st.claimed.length := by
  obtain ⟨hcount, hclaimed, hpend, hwritten, hnodup⟩ := hinv
  cases hfind : st.pending.find? (fun p => decide (p.call = k)) with
  | none =>
    exact ⟨st, stepEvent_write_none st k hfind, ⟨hcount, hclaimed, hpend, hwritten, hnodup⟩, rfl⟩
  | some p =>
    have hmem : p ∈ st.pending := List.mem_of_find?_eq_some hfind
    have hpk : p.call = k := by simpa using List.find?_some hfind
    obtain ⟨hplt, hpidx, hpcap⟩ := hpend p hmem
    have hin : 0 ≤ p.index ∧ p.index < MAX_ORDERS := ⟨by rw [hpidx]; omega, hpcap⟩
    refine ⟨_, stepEvent_write_some st k p hfind hin, ?_, rfl⟩
    refine ⟨hcount, hclaimed, ?_, ?_, ?_⟩
    · intro q hq
      exact hpend q (List.mem_filter.1 hq).1
    · intro w hw
      rcases List.mem_append.1 hw with hold | hnew
      · refine ⟨(hwritten w hold).1, (hwritten w hold).2.1, ?_⟩
        intro q hq
        exact (hwritten w hold).2.2 q (List.mem_filter.1 hq).1
      · rw [List.mem_singleton] at hnew
        subst hnew
        refine ⟨by simp only; rw [hpidx, hpk], by simp only; omega, ?_⟩
        intro q hq
        simpa using (List.mem_filter.1 hq).2
    · rw [List.map_append, List.nodup_append]
      refine ⟨hnodup, by simp, ?_⟩
      intro a ha hb
      simp only [List.map_cons, List.map_nil, List.mem_singleton] at hb
      obtain ⟨w, hw, hwa⟩ := List.mem_map.1 ha
      exact (hwritten w hw).2.2 p hmem (by rw [hpk, ← hb, ← hwa])

/-- An interleaving with fewer than `2^31` calls in all runs to its end and
keeps the invariant. -/
theorem runEvents_inv (events : List Event) (st : Shared) (hinv : st.Inv)
    (hbound : (st.claimed.length : Int) + (claimCount events : Int) ≤ 2147483647) :
    ∃ st1, runEvents st events = .ok st1 ∧ st1.Inv ∧
      st1.claimed.length = st.claimed.length + claimCount events := by
  induction events generalizing st with
  | nil => exact ⟨st, rfl, hinv, rfl⟩
  | cons e es ih =>
    cases e with
    | claim c =>
      simp only [claimCount] at hbound ⊢
      obtain ⟨st1, hstep, hinv1, hlen1⟩ := stepEvent_claim_inv st c hinv (by omega)
      obtain ⟨st2, hrun, hinv2, hlen2⟩ := ih st1 hinv1 (by rw [hlen1]; push_cast; omega)
      exact ⟨st2, by simp only [runEvents, hstep, hrun], hinv2, by omega⟩
    | write k =>
      simp only [claimCount] at hbound ⊢
      obtain ⟨st1, hstep, hinv1, hlen1⟩ := stepEvent_write_inv st k hinv
      obtain ⟨st2, hrun, hinv2, hlen2⟩ := ih st1 hinv1 (by rw [hlen1]; omega)
      exact ⟨st2, by simp only [runEvents, hstep, hrun], hinv2, by omega⟩

/-- A call whose two steps follow each other is a call of `addOrder`: when
no other call of that number is pending, the claim step and the write step of
a call leave the store that `addOrder` leaves, and fault when it faults. -/
theorem claim_then_write_is_addOrder (st : Shared) (c : Call)
    (hfresh : ∀ p ∈ st.pending, p.call ≠ st.claimed.length) :
    (∀ s1, submit st.store c = .ok s1 →
      ∃ st1, runEvents st [Event.claim c, Event.write st.claimed.length] = .ok st1 ∧
        st1.store = s1) ∧
    (∀ e, submit st.store c = .error e →
      runEvents st [Event.claim c, Event.write st.claimed.length] = .error e) := by
  have hnone : st.pending.find? (fun p => decide (p.call = st.claimed.length)) = none := by
    rw [List.find?_eq_none]
    intro p hp
    simpa using hfresh p hp
  by_cases hc : st.store.orderCount ≥ MAX_ORDERS
  · have hsub : submit st.store c =
        .ok { orderCount := wrapInt32 (st.store.orderCount + 1),
              orderBook := st.store.orderBook } :=
      addOrder_reject st.store c.isBuy c.ticker c.quantity c.price hc
    have hrun : runEvents st [Event.claim c, Event.write st.claimed.length] =
        .ok { store := { orderCount := wrapInt32 (st.store.orderCount + 1),
                         orderBook := st.store.orderBook },
              claimed := st.claimed ++ [st.store.orderCount],
              pending := st.pending,
              written := st.written } := by
      have hwrite := stepEvent_write_none
        { store := { orderCount := wrapInt32 (st.store.orderCount + 1),
                     orderBook := st.store.orderBook },
          claimed := st.claimed ++ [st.store.orderCount],
          pending := st.pending,
          written := st.written } st.claimed.length hnone
      simp only [runEvents, stepEvent_claim_full st c hc, hwrite]
    constructor
    · intro s1 hs1
      rw [hsub] at hs1
      cases hs1
      exact ⟨_, hrun, rfl⟩
    · intro e he
      rw [hsub] at he
      cases he
  · have hfind : (st.pending ++
        [({ call := st.claimed.length, index := st.store.orderCount, args := c } :
          PendingCall)]).find? (fun p => decide (p.call = st.claimed.length)) =
        some { call := st.claimed.length, index := st.store.orderCount, args := c } := by
      rw [List.find?_append, hnone]
      simp
    by_cases hneg : st.store.orderCount < 0
    · have hsub : submit st.store c = .error (Fault.orderBookIndex st.store.orderCount) :=
        addOrder_fault st.store c.isBuy c.ticker c.quantity c.price hneg
      have hrun : runEvents st [Event.claim c, Event.write st.claimed.length] =
          .error (Fault.orderBookIndex st.store.orderCount) := by
        have hwrite := stepEvent_write_fault
          { store := { orderCount := wrapInt32 (st.store.orderCount + 1),
                       orderBook := st.store.orderBook },
            claimed := st.claimed ++ [st.store.orderCount],
            pending := st.pending ++
              [{ call := st.claimed.length, index := st.store.orderCount, args := c }],
            written := st.written } st.claimed.length _ hfind
          (show ¬ (0 ≤ st.store.orderCount ∧ st.store.orderCount < MAX_ORDERS) by omega)
        simp only [runEvents, stepEvent_claim_free st c hc, hwrite]
      constructor
      · intro s1 hs1
        rw [hsub] at hs1
        cases hs1
      · intro e he
        rw [hsub] at he
        cases he
        exact hrun
    · have h0 : 0 ≤ st.store.orderCount := not_lt.1 hneg
      have hcap : st.store.orderCount < MAX_ORDERS := not_le.1 hc
      have hw : wrapInt32 (st.store.orderCount + 1) = st.store.orderCount + 1 :=
        wrapInt32_of_inRange _ (by omega) (by unfold MAX_ORDERS at hcap; omega)
      have hsub := addOrder_accept st.store c.isBuy c.ticker c.quantity c.price h0 hcap
      constructor
      · intro s1 hs1
        unfold submit at hs1
        rw [hsub] at hs1
        cases hs1
        have hwrite := stepEvent_write_some
          { store := { orderCount := wrapInt32 (st.store.orderCount + 1),
                       orderBook := st.store.orderBook },
            claimed := st.claimed ++ [st.store.orderCount],
            pending := st.pending ++
              [{ call := st.claimed.length, index := st.store.orderCount, args := c }],
            written := st.written } st.claimed.length _ hfind
          (show 0 ≤ st.store.orderCount ∧ st.store.orderCount < MAX_ORDERS from ⟨h0, hcap⟩)
        have hrun : runEvents st [Event.claim c, Event.write st.claimed.length] =
            .ok { store :=
                    { orderCount := wrapInt32 (st.store.orderCount + 1),
                      orderBook := Function.update st.store.orderBook st.store.orderCount
                        (Order.make st.store.orderCount c.isBuy c.ticker c.quantity c.price) },
                  claimed := st.claimed ++ [st.store.orderCount],
                  pending := (st.pending ++
                    [({ call := st.claimed.length, index := st.store.orderCount, args := c } :
                      PendingCall)]).filter (fun q => !decide (q.call = st.claimed.length)),
                  written := st.written ++ [(st.claimed.length, st.store.orderCount)] } := by
          simp only [runEvents, stepEvent_claim_free st c hc, hwrite]
        exact ⟨_, hrun, by simp only [hw]⟩
      · intro e he
        unfold submit at he
        rw [hsub] at he
        cases he

theorem wrapInt32_succ (b : Int) : wrapInt32 (wrapInt32 b + 1) = wrapInt32 (b + 1) := by
  unfold wrapInt32; omega

/-- A claim step always returns: it stores the counter plus one, wrapped, and
hands the old counter to the call. -/
theorem stepEvent_claim_any (st : Shared) (c : Call) :
    ∃ st1, stepEvent st (Event.claim c) = .ok st1 ∧
      st1.store.orderCount = wrapInt32 (st.store.orderCount + 1) ∧
      st1.claimed = st.claimed ++ [st.store.orderCount] := by
  by_cases hc : st.store.orderCount ≥ MAX_ORDERS
  · exact ⟨_, stepEvent_claim_full st c hc, rfl, rfl⟩
  · exact ⟨_, stepEvent_claim_free st c hc, rfl, rfl⟩

/-- An interleaving that begins with `n` claim steps: they all return, and
claim number `k` among them receives the counter advanced by `k`, wrapped. -/
theorem runEvents_claims (c : Call) (n : Nat) (st : Shared) (b : Int)
    (hb : st.store.orderCount = wrapInt32 b) :
    ∃ st1, runEvents st (List.replicate n (Event.claim c)) = .ok st1 ∧
      st1.store.orderCount = wrapInt32 (b + (n : Int)) ∧
      st1.claimed = st.claimed ++ (List.range n).map (fun k : Nat => wrapInt32 (b + (k : Int))) := by
  induction n generalizing st b with
  | zero => exact ⟨st, rfl, by simpa using hb, by simp⟩
  | succ n ih =>
    obtain ⟨st1, hstep, hcount1, hclaimed1⟩ := stepEvent_claim_any st c
    have hb1 : st1.store.orderCount = wrapInt32 (b + 1) := by
      rw [hcount1, hb, wrapInt32_succ]
    obtain ⟨st2, hrun, hcount2, hclaimed2⟩ := ih st1 (b + 1) hb1
    refine ⟨st2, ?_, ?_, ?_⟩
    · rw [List.replicate_succ]
      simp only [runEvents, hstep, hrun]
    · rw [hcount2]; congr 1; push_cast; omega
    · rw [hclaimed2, hclaimed1, hb, List.range_succ_eq_map, List.map_cons, List.map_map,
        List.append_assoc]
      congr 1
      simp only [List.singleton_append, Nat.cast_zero, add_zero, List.cons.injEq, true_and]
      apply List.map_congr_left
      intro k _
      simp only [Function.comp, Nat.succ_eq_add_one]
      congr 1; push_cast; omega

/-- From the initial state, `n` claim steps in a row all succeed; the counter
ends at the wrapped value of `n`, `n` indices have been handed out, and call
number `k` received the wrapped value of `k`. -/
theorem runEvents_claims_init (c : Call) (n : Nat) :
    ∃ st, runEvents Shared.init (List.replicate n (Event.claim c)) = .ok st ∧
      st.store.orderCount = wrapInt32 (n : Int) ∧
      st.claimed.length = n ∧
      ∀ k : Nat, k < n → st.claimed[k]? = some (wrapInt32 (k : Int)) := by
  obtain ⟨st, hrun, hcount, hclaimed⟩ := runEvents_claims c n Shared.init 0 rfl
  refine ⟨st, hrun, ?_, ?_, ?_⟩
  · rw [hcount, zero_add]
  · rw [hclaimed]
    simp only [Shared.init, List.nil_append, List.length_map, List.length_range]
  · intro k hk
    rw [hclaimed]
    simp only [Shared.init, List.nil_append, List.getElem?_map]
    rw [List.getElem?_range hk]
    simp only [Option.map_some', zero_add]

/-- Claim C16 fails as stated.  After the claim steps of `2^31` concurrent
calls the counter is `-2147483648`, not the number of claims made; and after
the claim steps of `2^32 + 1` concurrent calls, none of which has yet reached
its write step, call number 0 and call number `2^32` have both received the
index 0. -/
theorem concurrent_claims_wrap :
    (∃ st, runEvents Shared.init (List.replicate 2147483648 (Event.claim unitCall)) = .ok st ∧
      st.claimed.length = 2147483648 ∧ st.store.orderCount = -2147483648) ∧
    (∃ st, runEvents Shared.init (List.replicate 4294967297 (Event.claim unitCall)) = .ok st ∧
      st.claimed[0]? = some 0 ∧ st.claimed[4294967296]? = some 0) := by
  constructor
  · obtain ⟨st, hrun, hcount, hlen, _⟩ := runEvents_claims_init unitCall 2147483648
    exact ⟨st, hrun, hlen, hcount.trans rfl⟩
  · obtain ⟨st, hrun, _, _, hget⟩ := runEvents_claims_init unitCall 4294967297
    exact ⟨st, hrun, (hget 0 (by decide)).trans rfl, (hget 4294967296 (by decide)).trans rfl⟩

/-- Claim C16, amended.  Under every interleaving of the claim steps and the
write steps of concurrent calls of `addOrder` that holds at most `2^31 - 1`
calls, started from the empty store: every step returns; no two calls receive
the same index, call number `k` receiving index `k`; no increment is lost,
the counter being the number of claim steps; and no slot is written by two
calls, each write going to the index its call received. -/
theorem concurrent_calls_claim_distinct_slots (events : List Event)
    (hbound : (claimCount events : Int) ≤ 2147483647) :
    ∃ st, runEvents Shared.init events = .ok st ∧
      st.claimed.length = claimCount events ∧
      st.claimed.Nodup ∧
      (∀ k, k < claimCount events → st.claimed[k]? = some (k : Int)) ∧
      st.store.orderCount = (claimCount events : Int) ∧
      (st.written.map Prod.snd).Nodup ∧
      (st.written.map Prod.fst).Nodup ∧
      ∀ w ∈ st.written, st.claimed[w.1]? = some w.2 := by
  obtain ⟨st, hrun, hinv, hlen⟩ := runEvents_inv events Shared.init Shared.init_inv
    (by simpa [Shared.init] using hbound)
  have hlen1 : st.claimed.length = claimCount events := by
    simpa [Shared.init] using hlen
  obtain ⟨hcount, hclaimed, _, hwritten, hnodup⟩ := hinv
  have hget : ∀ k, k < st.claimed.length → st.claimed[k]? = some (k : Int) := by
    intro k hk
    rw [hclaimed, List.getElem?_map, List.getElem?_range (by simpa using hk)]
    rfl
  have hsnd : st.written.map Prod.snd =
      (st.written.map Prod.fst).map (fun k : Nat => (k : Int)) := by
    rw [List.map_map]
    apply List.map_congr_left
    intro w hw
    exact (hwritten w hw).1
  refine ⟨st, hrun, hlen1, ?_, ?_, ?_, ?_, hnodup, ?_⟩
  · rw [hclaimed]
    exact (List.nodup_range _).map Nat.cast_injective
  · intro k hk
    exact hget k (by omega)
  · rw [hcount, hlen1]
  · rw [hsnd]
    exact hnodup.map Nat.cast_injective
  · intro w hw
    rw [(hwritten w hw).1]
    exact hget w.1 (hwritten w hw).2.1

/-- Claim C16 (amended) at the interleaving `sampleEvents` of three calls, in
which the second call writes first: the calls receive the indices 0, 1, 2 and
the writes go to the slots 1, 0, 2. -/
theorem concurrent_calls_claim_distinct_slots_witness :
    (claimCount sampleEvents : Int) ≤ 2147483647 ∧
    (∃ st, runEvents Shared.init sampleEvents = .ok st ∧ st.claimed = [0, 1, 2] ∧
      st.written = [(1, 1), (0, 0), (2, 2)] ∧ st.store.orderCount = 3 ∧
      st.store.orderBook 0 = Order.make 0 false 1 3 (Double.fin 50) ∧
      st.store.orderBook 1 = Order.make 1 true 1 3 (Double.fin 60) ∧
      st.store.orderBook 2 = Order.make 2 true 2 3 (Double.fin 40)) ∧
    ∃ st, runEvents Shared.init sampleEvents = .ok st ∧
      st.claimed.length = claimCount sampleEvents ∧
      st.claimed.Nodup ∧
      (∀ k, k < claimCount sampleEvents → st.claimed[k]? = some (k : Int)) ∧
      st.store.orderCount = (claimCount sampleEvents : Int) ∧
      (st.written.map Prod.snd).Nodup ∧
      (st.written.map Prod.fst).Nodup ∧
      ∀ w ∈ st.written, st.claimed[w.1]? = some w.2 :=
  ⟨by decide, ⟨_, rfl, rfl, rfl, rfl, rfl, rfl, rfl⟩,
    concurrent_calls_claim_distinct_slots sampleEvents (by decide)⟩

end StockTrading
